import Mathlib

/-!
# Verification of the canvas board (src/Board.js)

Shallow embedding of the camera controller and the card registry of the
infinite-canvas board.  JS numbers are modelled as exact rationals (ℚ),
the Konva cards group is modelled as a list of shape ids in stack order
(index 0 = back-most child), and the `SHAPES` Map is modelled as an
association list in insertion order.
-/

namespace Canvas

/-! ## Camera state (ViewportController)

Mirrors the camera-related instance state of `Board`:
`CFG.world.{width,height}`, the stage/viewport size, `CFG.zoom.hardMin`,
`CFG.zoom.max`, and the mutable `zoom`, `camera.{x,y}`, `minZoom`. -/

structure Cam where
  worldW : ℚ
  worldH : ℚ
  vw : ℚ
  vh : ℚ
  hardMin : ℚ
  zmax : ℚ
  zoom : ℚ
  camX : ℚ
  camY : ℚ
  minZoom : ℚ
deriving DecidableEq, Repr

/-- `_getFitMinZoom`: `Math.max(hardMin, vw/worldW, vh/worldH)` with
`clientWidth || 1` / `clientHeight || 1` guarding a zero-sized mount. -/
def getFitMinZoom (c : Cam) : ℚ :=
  let vw := if c.vw = 0 then 1 else c.vw
  let vh := if c.vh = 0 then 1 else c.vh
  max c.hardMin (max (vw / c.worldW) (vh / c.worldH))

/-- `_updateMinZoomAndUI` (state part, `animateIfRaised: false`):
`newMin = Math.min(_getFitMinZoom(), CFG.zoom.max)`, adopted only when it
differs from the current `minZoom` by more than `1e-6`. -/
def updateMinZoom (c : Cam) : Cam :=
  let newMin := min (getFitMinZoom c) c.zmax
  if 1 / 1000000 < |newMin - c.minZoom| then { c with minZoom := newMin } else c

/-- `_clampCamera`: clamp the camera offset to
`[0, max(0, world − viewport/zoom)]` on each axis. -/
def clampCamera (c : Cam) : Cam :=
  let maxX := max 0 (c.worldW - c.vw / c.zoom)
  let maxY := max 0 (c.worldH - c.vh / c.zoom)
  { c with camX := min (max 0 c.camX) maxX, camY := min (max 0 c.camY) maxY }

/-- `clientToWorld` (x coordinate, with `rect.left = 0`):
`camera.x + px / zoom`. -/
def clientToWorldX (c : Cam) (px : ℚ) : ℚ := c.camX + px / c.zoom

/-- `clientToWorld` (y coordinate, with `rect.top = 0`):
`camera.y + py / zoom`. -/
def clientToWorldY (c : Cam) (py : ℚ) : ℚ := c.camY + py / c.zoom

/-- `_animateZoomTo`, final state once the tween reaches `t = 1`:
the target zoom is clamped to `[minZoom, CFG.zoom.max]`, the camera is
re-solved from the recorded world anchor and screen anchor, then clamped. -/
def animateZoomToFinal (c : Cam) (targetZoom anchorWX anchorWY ancSX ancSY : ℚ) : Cam :=
  let t := max c.minZoom (min c.zmax targetZoom)
  clampCamera { c with zoom := t, camX := anchorWX - ancSX / t, camY := anchorWY - ancSY / t }

/-- The wheel handler: refresh `minZoom`, record the world point under the
pointer as anchor, and zoom by the multiplicative `factor`
(`2 ^ (-deltaY / wheelSens)` in the source, kept abstract here). -/
def wheelZoom (c : Cam) (px py factor : ℚ) : Cam :=
  let c1 := updateMinZoom c
  let ax := c1.camX + px / c1.zoom
  let ay := c1.camY + py / c1.zoom
  animateZoomToFinal c1 (c1.zoom * factor) ax ay px py

/-- `setCamera(x, y)`: write the offset, then `_clampCamera()`. -/
def setCamera (c : Cam) (x y : ℚ) : Cam :=
  clampCamera { c with camX := x, camY := y }

/-- `easeOutCubic`: `t ↦ 1 − (1 − t)³`. -/
def easeOutCubic (t : ℚ) : ℚ := 1 - (1 - t) ^ 3

/-- The zoom value `setZoomPct(pct)` animates to: the source clamps
`pct/100` in `setZoomPct` and `_animateZoomTo` clamps once more. -/
def setZoomPctTarget (c : Cam) (pct : ℚ) : ℚ :=
  let z1 := max c.minZoom (min c.zmax (pct / 100))
  max c.minZoom (min c.zmax z1)

/-- The zoom value at eased progress `t ∈ [0,1]` of the `setZoomPct`
animation: `startZoom + (targetZoom − startZoom) * easeOutCubic t`. -/
def setZoomPctZoomAt (c : Cam) (pct t : ℚ) : ℚ :=
  c.zoom + (setZoomPctTarget c pct - c.zoom) * easeOutCubic t

/-! ## Shape models (ShapeRegistry) -/

/-- A partial card model as passed to `applySnapshot` / `applyPatch`:
every field except `id` may be absent. -/
structure InModel where
  id : String
  kind : Option String := none
  cx : Option ℚ := none
  cy : Option ℚ := none
  w : Option ℚ := none
  h : Option ℚ := none
  rot : Option ℚ := none
  z : Option Int := none
  styleKey : Option String := none
  stroke : Option String := none
  strokeWidth : Option ℚ := none
  bodyFill : Option String := none
  headerFill : Option String := none
  title : Option String := none
  img : Option String := none
deriving DecidableEq, Repr

/-- A stored card model (an entry of the `SHAPES` map) after `_upsertCard`
has applied defaults and clamping: `kind`, `w`, `h`, `cx`, `cy`, `z` are
always present. -/
@[ext]
structure CardModel where
  id : String
  kind : String
  cx : ℚ
  cy : ℚ
  w : ℚ
  h : ℚ
  rot : Option ℚ
  z : Int
  styleKey : Option String
  stroke : Option String
  strokeWidth : Option ℚ
  bodyFill : Option String
  headerFill : Option String
  title : Option String
  img : Option String
deriving DecidableEq, Repr

/-- The board state relevant to the registry: world size (`CFG.world`),
the `SHAPES` map (insertion-ordered association list) and the children of
`groups.cards` in stack order (`stack`, index 0 = back-most). -/
@[ext]
structure Board where
  worldW : ℚ
  worldH : ℚ
  shapes : List (String × CardModel)
  stack : List String
deriving DecidableEq, Repr

/-- A fresh board over the default `6000 × 6000` world. -/
def boardInit : Board := { worldW := 6000, worldH := 6000, shapes := [], stack := [] }

/-- `SHAPES.get(id)` / `getShapeModel(id)`. -/
def lookupShape : List (String × CardModel) → String → Option CardModel
  | [], _ => none
  | p :: rest, i => if p.1 = i then some p.2 else lookupShape rest i

def getShapeModel (s : Board) (i : String) : Option CardModel := lookupShape s.shapes i

/-- `SHAPES.set(id, m)`: replace in place if the key is present, else
append (JS `Map` insertion-order semantics). -/
def setShape : List (String × CardModel) → String → CardModel → List (String × CardModel)
  | [], i, m => [(i, m)]
  | p :: rest, i, m => if p.1 = i then (i, m) :: rest else p :: setShape rest i m

/-- `SHAPES.delete(id)`. -/
def eraseShape : List (String × CardModel) → String → List (String × CardModel)
  | [], _ => []
  | p :: rest, i => if p.1 = i then rest else p :: eraseShape rest i

/-- `_clampCardCenter(cx, cy, w, h)`:
clamp `cx` into `[w/2, worldW − w/2]` and `cy` into `[h/2, worldH − h/2]`. -/
def clampCardCenter (W H cx cy w h : ℚ) : ℚ × ℚ :=
  (min (max (w / 2) cx) (W - w / 2), min (max (h / 2) cy) (H - h / 2))

/-- The insertion index used by `Array.prototype.splice(z, 0, node)` (and
hence by Konva's `zIndex` setter) on a list of length `len`: a negative
index counts from the end (floored at 0), a too-large index appends. -/
def spliceIdx (z : Int) (len : Nat) : Nat :=
  if z < 0 then ((len : Int) + z).toNat else min z.toNat len

/-- Insert an element at a position (appending when the position is past
the end), as `splice(i, 0, x)` does. -/
def insertAt : Nat → String → List String → List String
  | 0, x, l => x :: l
  | _ + 1, x, [] => [x]
  | n + 1, x, y :: l => y :: insertAt n x l

/-- Konva `node.zIndex(z)`: remove the node from its parent's children and
re-insert it at the spliced index.  A node with no parent is untouched. -/
def moveToIndex (stack : List String) (i : String) (z : Int) : List String :=
  if i ∈ stack then
    let s' := stack.erase i
    insertAt (spliceIdx z s'.length) i s'
  else stack

/-- Konva `node.moveToTop()`: move the node to the end of its parent's
children (front-most). -/
def moveToTop (stack : List String) (i : String) : List String :=
  if i ∈ stack then stack.erase i ++ [i] else stack

/-- The model produced by `_upsertCard`'s merge phase:
`next = { kind: 'card', ...prev, ...model }`, then numeric defaults
`w = 300`, `h = 150`, then `(cx, cy)` clamped against `(w, h)`, then the
`z` default (previous value, else current stack length). -/
def upsertModel (W H : ℚ) (prev : Option CardModel) (e : InModel) (stackLen : Nat) :
    CardModel :=
  let w := (e.w.or (prev.map (·.w))).getD 300
  let h := (e.h.or (prev.map (·.h))).getD 150
  let c := clampCardCenter W H
    ((e.cx.or (prev.map (·.cx))).getD (w / 2))
    ((e.cy.or (prev.map (·.cy))).getD (h / 2)) w h
  { id := e.id
    kind := (e.kind.or (prev.map (·.kind))).getD "card"
    cx := c.1
    cy := c.2
    w := w
    h := h
    rot := e.rot.or (prev.bind (·.rot))
    z := (e.z.or (prev.map (·.z))).getD (Int.ofNat stackLen)
    styleKey := e.styleKey.or (prev.bind (·.styleKey))
    stroke := e.stroke.or (prev.bind (·.stroke))
    strokeWidth := e.strokeWidth.or (prev.bind (·.strokeWidth))
    bodyFill := e.bodyFill.or (prev.bind (·.bodyFill))
    headerFill := e.headerFill.or (prev.bind (·.headerFill))
    title := e.title.or (prev.bind (·.title))
    img := e.img.or (prev.bind (·.img)) }

/-- `_upsertCard(model)`: store the merged model; a new card's node is
appended to `groups.cards` and then moved to index `z`, an existing node
is moved to index `z` in place. -/
def upsertCard (s : Board) (e : InModel) : Board :=
  let prev := getShapeModel s e.id
  let m := upsertModel s.worldW s.worldH prev e s.stack.length
  let shapes1 := setShape s.shapes e.id m
  let stack1 :=
    if e.id ∈ s.stack then moveToIndex s.stack e.id m.z
    else moveToIndex (s.stack ++ [e.id]) e.id m.z
  { s with shapes := shapes1, stack := stack1 }

/-- `_removeShape(id)`: delete the model and destroy the node. -/
def removeShape (s : Board) (i : String) : Board :=
  { s with shapes := eraseShape s.shapes i, stack := s.stack.erase i }

/-- One step of the stable insertion sort realising
`[...arr].sort((a, b) => (a.z ?? 0) - (b.z ?? 0))`: an element is placed
after every already-placed element with a key `≤` its own. -/
def insAfterZ (x : InModel) : List InModel → List InModel
  | [] => [x]
  | y :: ys => if y.z.getD 0 ≤ x.z.getD 0 then y :: insAfterZ x ys else x :: y :: ys

/-- The stable ascending sort by `z` (missing `z` treated as `0`) used by
`applySnapshot`. -/
def sortByZ (arr : List InModel) : List InModel :=
  arr.foldl (fun acc x => insAfterZ x acc) []

/-- `applySnapshot(arr)`: sort by ascending `z`, upsert every entry, then
remove every existing shape whose id is absent from the input. -/
def applySnapshot (s : Board) (arr : List InModel) : Board :=
  let sorted := sortByZ arr
  let incoming := sorted.map (·.id)
  let s1 := sorted.foldl upsertCard s
  (s1.stack.filter (fun i => !(incoming.contains i))).foldl removeShape s1

/-- `applyPatch({add, update, remove})`. -/
def applyPatch (s : Board) (adds updates : List InModel) (removes : List String) : Board :=
  let s1 := adds.foldl upsertCard s
  let s2 := updates.foldl upsertCard s1
  removes.foldl removeShape s2

/-- Pair each element of a list with its index starting at `n`
(`nodes.map((n, idx) => ...)`). -/
def withIdx : Nat → List String → List (String × Nat)
  | _, [] => []
  | n, x :: xs => (x, n) :: withIdx (n + 1) xs

/-- `getCardOrder()`: walk the cards group and return `{id, z}` with `z`
equal to the child index (0 = back-most). -/
def getCardOrder (s : Board) : List (String × Nat) :=
  withIdx 0 s.stack

/-- `getCards()`: the stored models in stack order. -/
def getCards (s : Board) : List CardModel :=
  s.stack.filterMap (getShapeModel s)

/-- The write-back loop of `_normalizeAndEmitCardOrder`: for each
`{id, z}` of the order, set `z` on the stored model if it exists. -/
def applyOrder (sh : List (String × CardModel)) (order : List (String × Nat)) :
    List (String × CardModel) :=
  order.foldl
    (fun acc p =>
      match lookupShape acc p.1 with
      | some m => setShape acc p.1 { m with z := (p.2 : Int) }
      | none => acc) sh

/-- `_normalizeAndEmitCardOrder` (state part): write the dense ranks back
onto the models. -/
def normalizeCardOrder (s : Board) : Board :=
  { s with shapes := applyOrder s.shapes (getCardOrder s) }

/-- The callbacks a gesture fires (`Hooks.onDragStart`, `onDrag`,
`onDragEnd`, `onZOrderChange`). -/
inductive BoardEvt where
  | dragStartE (i : String) (cx cy : ℚ)
  | dragE (i : String) (cx cy : ℚ)
  | dragEndE (i : String) (cx cy : ℚ)
  | zOrderE (order : List (String × Nat))
deriving DecidableEq, Repr

/-- The position of the dragged node after a sequence of `dragmove`
events, each clamped by `dragBoundFunc` / the `dragmove` handler. -/
def dragMovesPos (W H w h : ℚ) (start : ℚ × ℚ) (moves : List (ℚ × ℚ)) : ℚ × ℚ :=
  moves.foldl (fun _ q => clampCardCenter W H q.1 q.2 w h) start

/-- A completed (non-vetoed) drag gesture on shape `i`: `dragstart` moves
the node to the top, `dragmove` updates the clamped center, `dragend`
commits the final clamped center and runs `_normalizeAndEmitCardOrder`. -/
def dragGesture (s : Board) (i : String) (moves : List (ℚ × ℚ)) : Board :=
  match getShapeModel s i with
  | none => s
  | some m =>
    let stack1 := moveToTop s.stack i
    let pos := dragMovesPos s.worldW s.worldH m.w m.h (m.cx, m.cy) moves
    let p := clampCardCenter s.worldW s.worldH pos.1 pos.2 m.w m.h
    let s2 := { s with stack := stack1, shapes := setShape s.shapes i { m with cx := p.1, cy := p.2 } }
    normalizeCardOrder s2

/-- The callbacks fired by a completed drag gesture, in order. -/
def dragGestureEvents (s : Board) (i : String) (moves : List (ℚ × ℚ)) : List BoardEvt :=
  match getShapeModel s i with
  | none => []
  | some m =>
    let stack1 := moveToTop s.stack i
    let moveEs := moves.map (fun q =>
      let p := clampCardCenter s.worldW s.worldH q.1 q.2 m.w m.h
      BoardEvt.dragE i p.1 p.2)
    let pos := dragMovesPos s.worldW s.worldH m.w m.h (m.cx, m.cy) moves
    let p := clampCardCenter s.worldW s.worldH pos.1 pos.2 m.w m.h
    let s2 := { s with stack := stack1, shapes := setShape s.shapes i { m with cx := p.1, cy := p.2 } }
    BoardEvt.dragStartE i m.cx m.cy :: moveEs ++ [BoardEvt.dragEndE i p.1 p.2, BoardEvt.zOrderE (getCardOrder s2)]

/-- A drag gesture vetoed by `onDragStart` returning `false`: the
`dragstart` handler has already called `node.moveToTop()` before the hook
runs, and `node.stopDrag()` synchronously fires Konva's `dragend`, so the
`dragend` handler still re-clamps the (unmoved) node position, commits
it, fires `onDragEnd` and runs `_normalizeAndEmitCardOrder` — a vetoed
gesture is a completed gesture with an empty `dragmove` sequence. -/
def vetoDragStart (s : Board) (i : String) : Board :=
  dragGesture s i []

/-- The callbacks fired by a vetoed drag gesture: `onDragStart`, then —
via the `dragend` that `stopDrag()` fires — `onDragEnd` and
`onZOrderChange`, with no `onDrag` in between. -/
def vetoDragStartEvents (s : Board) (i : String) : List BoardEvt :=
  dragGestureEvents s i []

/-- The mutating operations of claim C3: upsert (`applySnapshot` /
`applyPatch` entry), remove, and a completed drag gesture. -/
inductive BoardOp where
  | upsertOp (e : InModel)
  | removeOp (i : String)
  | dragOp (i : String) (moves : List (ℚ × ℚ))
deriving Repr

def applyOp (s : Board) : BoardOp → Board
  | .upsertOp e => upsertCard s e
  | .removeOp i => removeShape s i
  | .dragOp i moves => dragGesture s i moves

def applyOps (s : Board) (ops : List BoardOp) : Board :=
  ops.foldl applyOp s

/-- Well-formedness tying `SHAPES` to the cards group: no duplicate node,
no duplicate key, and a node exists exactly for the stored models. -/
def WF (s : Board) : Prop :=
  s.stack.Nodup ∧ (s.shapes.map Prod.fst).Nodup ∧
  (∀ i ∈ s.stack, i ∈ s.shapes.map Prod.fst) ∧
  (∀ i ∈ s.shapes.map Prod.fst, i ∈ s.stack)

instance (s : Board) : Decidable (WF s) := by
  unfold WF; infer_instance

/-- Recogniser for the z-order notification among the fired callbacks. -/
def isZOrderE : BoardEvt → Bool
  | .zOrderE _ => true
  | _ => false

/-- Test fixture: the stored model of a default card "A" at the top-left. -/
def cardA : CardModel :=
  { id := "A", kind := "card", cx := 150, cy := 75, w := 300, h := 150, rot := none,
    z := 0, styleKey := none, stroke := none, strokeWidth := none, bodyFill := none,
    headerFill := none, title := none, img := none }

/-- Test fixture: a second card "B" above "A". -/
def cardB : CardModel := { cardA with id := "B", z := 1 }

/-- Test fixture: a well-formed two-card board. -/
def boardAB : Board :=
  { worldW := 6000, worldH := 6000, shapes := [("A", cardA), ("B", cardB)],
    stack := ["A", "B"] }

/-! ## Helper lemmas -/

theorem updateMinZoom_camX (c : Cam) : (updateMinZoom c).camX = c.camX := by
  simp only [updateMinZoom]; split <;> rfl

theorem updateMinZoom_camY (c : Cam) : (updateMinZoom c).camY = c.camY := by
  simp only [updateMinZoom]; split <;> rfl

theorem updateMinZoom_zoom (c : Cam) : (updateMinZoom c).zoom = c.zoom := by
  simp only [updateMinZoom]; split <;> rfl

theorem updateMinZoom_zmax (c : Cam) : (updateMinZoom c).zmax = c.zmax := by
  simp only [updateMinZoom]; split <;> rfl

theorem updateMinZoom_worldW (c : Cam) : (updateMinZoom c).worldW = c.worldW := by
  simp only [updateMinZoom]; split <;> rfl

theorem updateMinZoom_worldH (c : Cam) : (updateMinZoom c).worldH = c.worldH := by
  simp only [updateMinZoom]; split <;> rfl

theorem updateMinZoom_vw (c : Cam) : (updateMinZoom c).vw = c.vw := by
  simp only [updateMinZoom]; split <;> rfl

theorem updateMinZoom_vh (c : Cam) : (updateMinZoom c).vh = c.vh := by
  simp only [updateMinZoom]; split <;> rfl

theorem lookupShape_setShape_self (sh : List (String × CardModel)) (i : String)
    (m : CardModel) : lookupShape (setShape sh i m) i = some m := by
  induction sh with
  | nil => simp [setShape, lookupShape]
  | cons p rest ih =>
    obtain ⟨a, b⟩ := p
    by_cases h : a = i
    · simp [setShape, lookupShape, h]
    · simp [setShape, lookupShape, h, ih]

theorem lookupShape_setShape_ne (sh : List (String × CardModel)) (i j : String)
    (m : CardModel) (h : j ≠ i) :
    lookupShape (setShape sh i m) j = lookupShape sh j := by
  induction sh with
  | nil => simp [setShape, lookupShape, Ne.symm h]
  | cons p rest ih =>
    obtain ⟨a, b⟩ := p
    by_cases hp : a = i
    · subst hp
      simp [setShape, lookupShape, Ne.symm h]
    · by_cases hj : a = j <;> simp [setShape, lookupShape, hp, hj, ih, h]

theorem setShape_lookup_eq (sh : List (String × CardModel)) (i : String) (m : CardModel)
    (h : lookupShape sh i = some m) : setShape sh i m = sh := by
  induction sh with
  | nil => simp [lookupShape] at h
  | cons p rest ih =>
    obtain ⟨a, b⟩ := p
    by_cases hp : a = i
    · simp only [lookupShape, hp, if_pos] at h
      simp only [Option.some.injEq] at h
      simp [setShape, hp, ← h]
    · simp only [lookupShape, hp, if_neg, if_false] at h
      simp [setShape, hp, ih h]

theorem lookupShape_eraseShape_ne (sh : List (String × CardModel)) (i j : String)
    (h : j ≠ i) : lookupShape (eraseShape sh i) j = lookupShape sh j := by
  induction sh with
  | nil => simp [eraseShape]
  | cons p rest ih =>
    obtain ⟨a, b⟩ := p
    by_cases hp : a = i
    · subst hp
      simp [eraseShape, lookupShape, Ne.symm h]
    · by_cases hj : a = j <;> simp [eraseShape, lookupShape, hp, hj, ih, h]

theorem map_fst_setShape_mem (sh : List (String × CardModel)) (i : String) (m : CardModel)
    (h : i ∈ sh.map Prod.fst) :
    (setShape sh i m).map Prod.fst = sh.map Prod.fst := by
  induction sh with
  | nil => simp at h
  | cons p rest ih =>
    obtain ⟨a, b⟩ := p
    by_cases hp : a = i
    · simp [setShape, hp]
    · simp only [List.map_cons, List.mem_cons] at h
      rcases h with h | h

      · exact absurd h.symm hp
      · simp [setShape, hp, ih h]

theorem map_fst_setShape_not_mem (sh : List (String × CardModel)) (i : String) (m : CardModel)
    (h : i ∉ sh.map Prod.fst) :
    (setShape sh i m).map Prod.fst = sh.map Prod.fst ++ [i] := by
  induction sh with
  | nil => simp [setShape]
  | cons p rest ih =>
    obtain ⟨a, b⟩ := p
    simp only [List.map_cons, List.mem_cons] at h
    push_neg at h
    simp [setShape, Ne.symm h.1, ih h.2]

theorem map_fst_eraseShape (sh : List (String × CardModel)) (i : String) :
    (eraseShape sh i).map Prod.fst = (sh.map Prod.fst).erase i := by
  induction sh with
  | nil => simp [eraseShape]
  | cons p rest ih =>
    obtain ⟨a, b⟩ := p
    by_cases hp : a = i
    · simp [eraseShape, hp, List.erase_cons_head]
    · rw [List.map_cons, List.erase_cons_tail]
      · simp [eraseShape, hp, ih]
      · simp [hp]

theorem lookupShape_isSome_iff (sh : List (String × CardModel)) (i : String) :
    (lookupShape sh i).isSome ↔ i ∈ sh.map Prod.fst := by
  induction sh with
  | nil => simp [lookupShape]
  | cons p rest ih =>
    obtain ⟨a, b⟩ := p
    by_cases hp : a = i
    · simp [lookupShape, hp]
    · simp [lookupShape, hp, ih, Ne.symm hp]

theorem lookupShape_eq_none_iff (sh : List (String × CardModel)) (i : String) :
    lookupShape sh i = none ↔ i ∉ sh.map Prod.fst := by
  rw [← lookupShape_isSome_iff, Option.not_isSome_iff_eq_none]

theorem insertAt_perm (x : String) : ∀ (n : Nat) (l : List String),
    (insertAt n x l).Perm (x :: l)
  | 0, l => by simp [insertAt]
  | _ + 1, [] => by simp [insertAt]
  | n + 1, y :: l => by
    simpa [insertAt] using ((insertAt_perm x n l).cons y).trans (List.Perm.swap x y l)

theorem insertAt_length_append (x : String) :
    ∀ (l1 l2 : List String), insertAt l1.length x (l1 ++ l2) = l1 ++ x :: l2
  | [], l2 => by simp [insertAt]
  | y :: l1, l2 => by simp [insertAt, insertAt_length_append x l1 l2]

theorem moveToIndex_eq (stack : List String) (i : String) (z : Int) (h : i ∈ stack) :
    moveToIndex stack i z =
      insertAt (spliceIdx z (stack.erase i).length) i (stack.erase i) := by
  unfold moveToIndex
  rw [if_pos h]

theorem moveToIndex_perm (stack : List String) (i : String) (z : Int) :
    (moveToIndex stack i z).Perm stack := by
  unfold moveToIndex
  split
  · exact ((insertAt_perm i _ _).trans (List.perm_cons_erase (by assumption)).symm)
  · exact List.Perm.refl stack

theorem moveToTop_perm (stack : List String) (i : String) :
    (moveToTop stack i).Perm stack := by
  unfold moveToTop
  split
  · exact (List.perm_append_singleton i _).trans (List.perm_cons_erase (by assumption)).symm
  · exact List.Perm.refl stack

theorem withIdx_map_fst : ∀ (n : Nat) (l : List String),
    (withIdx n l).map Prod.fst = l
  | _, [] => rfl
  | n, x :: xs => by simp [withIdx, withIdx_map_fst (n + 1) xs]

theorem withIdx_map_snd : ∀ (n : Nat) (l : List String),
    (withIdx n l).map Prod.snd = List.range' n l.length
  | _, [] => rfl
  | n, x :: xs => by
    simp [withIdx, withIdx_map_snd (n + 1) xs, List.range'_succ]

theorem getCardOrder_map_fst (s : Board) : (getCardOrder s).map Prod.fst = s.stack :=
  withIdx_map_fst 0 s.stack

theorem getCardOrder_map_snd (s : Board) :
    (getCardOrder s).map Prod.snd = List.range s.stack.length := by
  rw [List.range_eq_range']
  exact withIdx_map_snd 0 s.stack

theorem applyOrder_cons (sh : List (String × CardModel)) (q : String × Nat)
    (rest : List (String × Nat)) :
    applyOrder sh (q :: rest) =
      applyOrder
        (match lookupShape sh q.1 with
          | some m => setShape sh q.1 { m with z := (q.2 : Int) }
          | none => sh) rest := rfl

theorem map_fst_applyOrder (order : List (String × Nat)) :
    ∀ (sh : List (String × CardModel)),
      (applyOrder sh order).map Prod.fst = sh.map Prod.fst := by
  induction order with
  | nil => intro sh; rfl
  | cons q rest ih =>
    intro sh
    rw [applyOrder_cons]
    rcases hq : lookupShape sh q.1 with _ | mq
    · rw [ih sh]
    · have hmem : q.1 ∈ sh.map Prod.fst := by
        rw [← lookupShape_isSome_iff, hq]; rfl
      rw [ih, map_fst_setShape_mem sh q.1 _ hmem]

theorem applyOrder_lookup_not_mem (order : List (String × Nat)) :
    ∀ (sh : List (String × CardModel)) (j : String), j ∉ order.map Prod.fst →
      lookupShape (applyOrder sh order) j = lookupShape sh j := by
  induction order with
  | nil => intro sh j _; rfl
  | cons q rest ih =>
    intro sh j hj
    simp only [List.map_cons, List.mem_cons] at hj
    push_neg at hj
    rw [applyOrder_cons]
    rcases hq : lookupShape sh q.1 with _ | mq
    · exact ih sh j hj.2
    · rw [ih _ j hj.2]
      exact lookupShape_setShape_ne sh q.1 j _ hj.1

/-- Each entry of the order list writes its rank onto the stored model:
with distinct ids each model ends with `z` equal to its rank. -/
theorem applyOrder_lookup_mem (order : List (String × Nat)) :
    ∀ (sh : List (String × CardModel)), (order.map Prod.fst).Nodup →
      ∀ p ∈ order, ∀ m0, lookupShape sh p.1 = some m0 →
        lookupShape (applyOrder sh order) p.1 = some { m0 with z := (p.2 : Int) } := by
  induction order with
  | nil => intro sh _ p hp; simp at hp
  | cons q rest ih =>
    intro sh hnd p hp m0 hm0
    simp only [List.map_cons, List.nodup_cons] at hnd
    rcases List.mem_cons.mp hp with hp | hp
    · subst hp
      rw [applyOrder_cons, hm0]
      rw [applyOrder_lookup_not_mem rest _ p.1 hnd.1]
      exact lookupShape_setShape_self sh p.1 _
    · have hne : p.1 ≠ q.1 := by
        intro hcontra
        exact hnd.1 (hcontra ▸ (List.mem_map_of_mem Prod.fst hp))
      rw [applyOrder_cons]
      rcases hq : lookupShape sh q.1 with _ | mq
      · exact ih sh hnd.2 p hp m0 hm0
      · refine ih _ hnd.2 p hp m0 ?_
        rw [lookupShape_setShape_ne sh q.1 p.1 _ hne]
        exact hm0

/-! ### Well-formedness preservation -/

theorem WF_boardInit : WF boardInit := by
  refine ⟨List.nodup_nil, List.nodup_nil, ?_, ?_⟩ <;> simp [boardInit]

theorem WF_stack_perm_keys (s : Board) (h : WF s) :
    s.stack.Perm (s.shapes.map Prod.fst) := by
  obtain ⟨h1, h2, h3, h4⟩ := h
  exact (List.subperm_of_subset h1 h3).antisymm (List.subperm_of_subset h2 h4)

theorem upsertCard_worldW (s : Board) (e : InModel) : (upsertCard s e).worldW = s.worldW := rfl

theorem upsertCard_worldH (s : Board) (e : InModel) : (upsertCard s e).worldH = s.worldH := rfl

theorem upsertCard_shapes (s : Board) (e : InModel) :
    (upsertCard s e).shapes =
      setShape s.shapes e.id
        (upsertModel s.worldW s.worldH (getShapeModel s e.id) e s.stack.length) := rfl

theorem upsertCard_stack (s : Board) (e : InModel) :
    (upsertCard s e).stack =
      if e.id ∈ s.stack then
        moveToIndex s.stack e.id
          (upsertModel s.worldW s.worldH (getShapeModel s e.id) e s.stack.length).z
      else
        moveToIndex (s.stack ++ [e.id]) e.id
          (upsertModel s.worldW s.worldH (getShapeModel s e.id) e s.stack.length).z := rfl

theorem WF_upsertCard (s : Board) (e : InModel) (h : WF s) : WF (upsertCard s e) := by
  obtain ⟨h1, h2, h3, h4⟩ := h
  by_cases hi : e.id ∈ s.stack
  · have hstack : (upsertCard s e).stack = moveToIndex s.stack e.id
        (upsertModel s.worldW s.worldH (getShapeModel s e.id) e s.stack.length).z := by
      rw [upsertCard_stack, if_pos hi]
    have hperm := moveToIndex_perm s.stack e.id
      (upsertModel s.worldW s.worldH (getShapeModel s e.id) e s.stack.length).z
    have hkey : e.id ∈ s.shapes.map Prod.fst := h3 e.id hi
    refine ⟨?_, ?_, ?_, ?_⟩
    · rw [hstack]; exact hperm.nodup_iff.mpr h1
    · rw [upsertCard_shapes, map_fst_setShape_mem _ _ _ hkey]; exact h2
    · intro j hj
      rw [hstack] at hj
      rw [upsertCard_shapes, map_fst_setShape_mem _ _ _ hkey]
      exact h3 j (hperm.mem_iff.mp hj)
    · intro j hj
      rw [upsertCard_shapes, map_fst_setShape_mem _ _ _ hkey] at hj
      rw [hstack]
      exact hperm.mem_iff.mpr (h4 j hj)
  · have hstack : (upsertCard s e).stack = moveToIndex (s.stack ++ [e.id]) e.id
        (upsertModel s.worldW s.worldH (getShapeModel s e.id) e s.stack.length).z := by
      rw [upsertCard_stack, if_neg hi]
    have hkey : e.id ∉ s.shapes.map Prod.fst := fun hc => hi (h4 e.id hc)
    have hperm := moveToIndex_perm (s.stack ++ [e.id]) e.id
      (upsertModel s.worldW s.worldH (getShapeModel s e.id) e s.stack.length).z
    have hnd : (s.stack ++ [e.id]).Nodup := by
      simp [List.nodup_append, h1, hi]
    refine ⟨?_, ?_, ?_, ?_⟩
    · rw [hstack]; exact hperm.nodup_iff.mpr hnd
    · rw [upsertCard_shapes, map_fst_setShape_not_mem _ _ _ hkey]
      simp [List.nodup_append, h2, hkey]
    · intro j hj
      rw [hstack] at hj
      rw [upsertCard_shapes, map_fst_setShape_not_mem _ _ _ hkey]
      have := hperm.mem_iff.mp hj
      simp only [List.mem_append, List.mem_singleton] at this ⊢
      rcases this with hj' | hj'
      · exact Or.inl (h3 j hj')
      · exact Or.inr hj'
    · intro j hj
      rw [hstack]
      refine hperm.mem_iff.mpr ?_
      rw [upsertCard_shapes, map_fst_setShape_not_mem _ _ _ hkey] at hj
      simp only [List.mem_append, List.mem_singleton] at hj ⊢
      rcases hj with hj' | hj'
      · exact Or.inl (h4 j hj')
      · exact Or.inr hj'

theorem WF_removeShape (s : Board) (i : String) (h : WF s) : WF (removeShape s i) := by
  obtain ⟨h1, h2, h3, h4⟩ := h
  refine ⟨h1.erase i, ?_, ?_, ?_⟩
  · rw [removeShape, map_fst_eraseShape]
    exact h2.erase i
  · intro j hj
    rw [removeShape, map_fst_eraseShape]
    rw [show (removeShape s i).stack = s.stack.erase i from rfl] at hj
    rw [h1.mem_erase_iff] at hj
    exact h2.mem_erase_iff.mpr ⟨hj.1, h3 j hj.2⟩
  · intro j hj
    rw [show (removeShape s i).stack = s.stack.erase i from rfl]
    rw [removeShape, map_fst_eraseShape] at hj
    rw [h2.mem_erase_iff] at hj
    exact h1.mem_erase_iff.mpr ⟨hj.1, h4 j hj.2⟩

theorem WF_stack_shapes (s : Board) (sh : List (String × CardModel))
    (hkeys : sh.map Prod.fst = s.shapes.map Prod.fst) (stack : List String)
    (hperm : stack.Perm s.stack) (h : WF s) :
    WF { s with stack := stack, shapes := sh } := by
  obtain ⟨h1, h2, h3, h4⟩ := h
  refine ⟨hperm.nodup_iff.mpr h1, ?_, ?_, ?_⟩
  · show (sh.map Prod.fst).Nodup
    rw [hkeys]; exact h2
  · intro j hj
    show j ∈ sh.map Prod.fst
    rw [hkeys]
    exact h3 j (hperm.mem_iff.mp hj)
  · intro j hj
    rw [show ({ s with stack := stack, shapes := sh } : Board).shapes = sh from rfl,
      hkeys] at hj
    exact hperm.mem_iff.mpr (h4 j hj)

theorem WF_normalizeCardOrder (s : Board) (h : WF s) : WF (normalizeCardOrder s) :=
  WF_stack_shapes s _ (map_fst_applyOrder _ s.shapes) s.stack (List.Perm.refl _) h

theorem WF_dragGesture (s : Board) (i : String) (moves : List (ℚ × ℚ)) (h : WF s) :
    WF (dragGesture s i moves) := by
  unfold dragGesture
  rcases hm : getShapeModel s i with _ | m
  · exact h
  · have hkey : i ∈ s.shapes.map Prod.fst := by
      rw [← lookupShape_isSome_iff, show lookupShape s.shapes i = getShapeModel s i from rfl,
        hm]; rfl
    refine WF_normalizeCardOrder _ ?_
    exact WF_stack_shapes s _ (map_fst_setShape_mem s.shapes i _ hkey) _
      (moveToTop_perm s.stack i) h

theorem WF_applyOp (s : Board) (op : BoardOp) (h : WF s) : WF (applyOp s op) := by
  cases op with
  | upsertOp e => exact WF_upsertCard s e h
  | removeOp i => exact WF_removeShape s i h
  | dragOp i moves => exact WF_dragGesture s i moves h

theorem WF_applyOps (ops : List BoardOp) : ∀ (s : Board), WF s → WF (applyOps s ops) := by
  induction ops with
  | nil => intro s h; exact h
  | cons op rest ih =>
    intro s h
    exact ih (applyOp s op) (WF_applyOp s op h)

/-- The stored model after `_upsertCard` is exactly the merged model. -/
theorem getShapeModel_upsertCard_self (s : Board) (e : InModel) :
    getShapeModel (upsertCard s e) e.id =
      some (upsertModel s.worldW s.worldH (getShapeModel s e.id) e s.stack.length) := by
  unfold upsertCard getShapeModel
  exact lookupShape_setShape_self _ _ _

theorem someOr {α : Type} (a : α) (o : Option α) : (some a).or o = some a := rfl

theorem orSome_getD_absorb {α : Type} (o p : Option α) (d d' : α) :
    (o.or (some ((o.or p).getD d))).getD d' = (o.or p).getD d := by
  cases o <;> rfl

theorem or_or_absorb {α : Type} (o q : Option α) : o.or (o.or q) = o.or q := by
  cases o <;> rfl

/-- The 1-dimensional clamp `v ↦ min (max lo v) hi` is idempotent. -/
theorem clampQ_idem (lo hi v : ℚ) :
    min (max lo (min (max lo v) hi)) hi = min (max lo v) hi := by
  rcases le_total lo hi with h | h
  · have h1 : lo ≤ min (max lo v) hi := le_min (le_max_left lo v) h
    have h2 : min (max lo v) hi ≤ hi := min_le_right _ _
    rw [max_eq_right h1, min_eq_left h2]
  · have h1 : min (max lo v) hi = hi := min_eq_right ((le_max_left lo v).trans' h)
    rw [h1, max_eq_left h, min_eq_right h]

theorem upsertModel_id (W H : ℚ) (prev : Option CardModel) (e : InModel) (len : Nat) :
    (upsertModel W H prev e len).id = e.id := rfl

theorem upsertModel_kind (W H : ℚ) (prev : Option CardModel) (e : InModel) (len : Nat) :
    (upsertModel W H prev e len).kind = (e.kind.or (prev.map (·.kind))).getD "card" := rfl

theorem upsertModel_w (W H : ℚ) (prev : Option CardModel) (e : InModel) (len : Nat) :
    (upsertModel W H prev e len).w = (e.w.or (prev.map (·.w))).getD 300 := rfl

theorem upsertModel_h (W H : ℚ) (prev : Option CardModel) (e : InModel) (len : Nat) :
    (upsertModel W H prev e len).h = (e.h.or (prev.map (·.h))).getD 150 := rfl

theorem upsertModel_z (W H : ℚ) (prev : Option CardModel) (e : InModel) (len : Nat) :
    (upsertModel W H prev e len).z = (e.z.or (prev.map (·.z))).getD (Int.ofNat len) := rfl

theorem upsertModel_cx (W H : ℚ) (prev : Option CardModel) (e : InModel) (len : Nat) :
    (upsertModel W H prev e len).cx =
      (clampCardCenter W H
        ((e.cx.or (prev.map (·.cx))).getD ((e.w.or (prev.map (·.w))).getD 300 / 2))
        ((e.cy.or (prev.map (·.cy))).getD ((e.h.or (prev.map (·.h))).getD 150 / 2))
        ((e.w.or (prev.map (·.w))).getD 300)
        ((e.h.or (prev.map (·.h))).getD 150)).1 := rfl

theorem upsertModel_cy (W H : ℚ) (prev : Option CardModel) (e : InModel) (len : Nat) :
    (upsertModel W H prev e len).cy =
      (clampCardCenter W H
        ((e.cx.or (prev.map (·.cx))).getD ((e.w.or (prev.map (·.w))).getD 300 / 2))
        ((e.cy.or (prev.map (·.cy))).getD ((e.h.or (prev.map (·.h))).getD 150 / 2))
        ((e.w.or (prev.map (·.w))).getD 300)
        ((e.h.or (prev.map (·.h))).getD 150)).2 := rfl

theorem upsertModel_rot (W H : ℚ) (prev : Option CardModel) (e : InModel) (len : Nat) :
    (upsertModel W H prev e len).rot = e.rot.or (prev.bind (·.rot)) := rfl

theorem upsertModel_styleKey (W H : ℚ) (prev : Option CardModel) (e : InModel) (len : Nat) :
    (upsertModel W H prev e len).styleKey = e.styleKey.or (prev.bind (·.styleKey)) := rfl

theorem upsertModel_stroke (W H : ℚ) (prev : Option CardModel) (e : InModel) (len : Nat) :
    (upsertModel W H prev e len).stroke = e.stroke.or (prev.bind (·.stroke)) := rfl

theorem upsertModel_strokeWidth (W H : ℚ) (prev : Option CardModel) (e : InModel) (len : Nat) :
    (upsertModel W H prev e len).strokeWidth = e.strokeWidth.or (prev.bind (·.strokeWidth)) := rfl

theorem upsertModel_bodyFill (W H : ℚ) (prev : Option CardModel) (e : InModel) (len : Nat) :
    (upsertModel W H prev e len).bodyFill = e.bodyFill.or (prev.bind (·.bodyFill)) := rfl

theorem upsertModel_headerFill (W H : ℚ) (prev : Option CardModel) (e : InModel) (len : Nat) :
    (upsertModel W H prev e len).headerFill = e.headerFill.or (prev.bind (·.headerFill)) := rfl

theorem upsertModel_title (W H : ℚ) (prev : Option CardModel) (e : InModel) (len : Nat) :
    (upsertModel W H prev e len).title = e.title.or (prev.bind (·.title)) := rfl

theorem upsertModel_img (W H : ℚ) (prev : Option CardModel) (e : InModel) (len : Nat) :
    (upsertModel W H prev e len).img = e.img.or (prev.bind (·.img)) := rfl

/-- Re-merging the same partial model over its own merge result gives the
same stored model: the key absorption property behind snapshot
idempotence on the model map. -/
theorem upsertModel_absorb (W H : ℚ) (prev : Option CardModel) (e : InModel)
    (len len' : Nat) :
    upsertModel W H (some (upsertModel W H prev e len)) e len' =
      upsertModel W H prev e len := by
  have hw : (e.w.or (some ((upsertModel W H prev e len).w))).getD 300 =
      (e.w.or (prev.map (·.w))).getD 300 := by
    rw [upsertModel_w]; exact orSome_getD_absorb _ _ _ _
  have hh : (e.h.or (some ((upsertModel W H prev e len).h))).getD 150 =
      (e.h.or (prev.map (·.h))).getD 150 := by
    rw [upsertModel_h]; exact orSome_getD_absorb _ _ _ _
  refine CardModel.ext ?_ ?_ ?_ ?_ ?_ ?_ ?_ ?_ ?_ ?_ ?_ ?_ ?_ ?_ ?_
  · rw [upsertModel_id, upsertModel_id]
  · rw [upsertModel_kind, upsertModel_kind, Option.map_some']
    rw [upsertModel_kind]
    exact orSome_getD_absorb _ _ _ _
  · simp only [upsertModel_cx, Option.map_some', hw, hh]
    rcases hcx : e.cx with _ | c <;>
      simp only [hcx, Option.none_or, someOr, Option.getD_some, clampCardCenter]
    exact clampQ_idem _ _ _
  · simp only [upsertModel_cy, Option.map_some', hw, hh]
    rcases hcy : e.cy with _ | c <;>
      simp only [hcy, Option.none_or, someOr, Option.getD_some, clampCardCenter]
    exact clampQ_idem _ _ _
  · rw [upsertModel_w, upsertModel_w, Option.map_some', hw]
  · rw [upsertModel_h, upsertModel_h, Option.map_some', hh]
  · rw [upsertModel_rot, upsertModel_rot, Option.some_bind, upsertModel_rot]
    exact or_or_absorb _ _
  · rw [upsertModel_z, upsertModel_z, Option.map_some', upsertModel_z]
    exact orSome_getD_absorb _ _ _ _
  · rw [upsertModel_styleKey, upsertModel_styleKey, Option.some_bind, upsertModel_styleKey]
    exact or_or_absorb _ _
  · rw [upsertModel_stroke, upsertModel_stroke, Option.some_bind, upsertModel_stroke]
    exact or_or_absorb _ _
  · rw [upsertModel_strokeWidth, upsertModel_strokeWidth, Option.some_bind,
      upsertModel_strokeWidth]
    exact or_or_absorb _ _
  · rw [upsertModel_bodyFill, upsertModel_bodyFill, Option.some_bind, upsertModel_bodyFill]
    exact or_or_absorb _ _
  · rw [upsertModel_headerFill, upsertModel_headerFill, Option.some_bind,
      upsertModel_headerFill]
    exact or_or_absorb _ _
  · rw [upsertModel_title, upsertModel_title, Option.some_bind, upsertModel_title]
    exact or_or_absorb _ _
  · rw [upsertModel_img, upsertModel_img, Option.some_bind, upsertModel_img]
    exact or_or_absorb _ _

theorem spliceIdx_natCast (k len : Nat) (h : k ≤ len) : spliceIdx (k : Int) len = k := by
  unfold spliceIdx
  split <;> omega

/-- A filter that excludes a prefix is unchanged when the prefix grows by
an id that does not occur in the base list. -/
theorem filter_not_mem_grow (base : List String) (pre : List String) (i : String)
    (hi : i ∉ base) :
    base.filter (fun x => decide (x ∉ pre)) =
      base.filter (fun x => decide (x ∉ pre ++ [i])) := by
  refine List.filter_congr ?_
  intro x hx
  have hxi : x ≠ i := fun hc => hi (hc ▸ hx)
  simp only [List.mem_append, List.mem_singleton, decide_eq_decide]
  constructor
  · intro h hc
    rcases hc with hc | hc
    · exact h hc
    · exact hxi hc
  · intro h hc
    exact h (Or.inl hc)

/-- Erasing an element from a filtered duplicate-free list is the same as
filtering with the element additionally excluded. -/
theorem filter_not_mem_erase (base : List String) (pre : List String) (i : String)
    (hnd : base.Nodup) :
    (base.filter (fun x => decide (x ∉ pre))).erase i =
      base.filter (fun x => decide (x ∉ pre ++ [i])) := by
  induction base with
  | nil => rfl
  | cons b bs ih =>
    rw [List.nodup_cons] at hnd
    by_cases hb : b ∈ pre
    · have h1 : (decide (b ∉ pre)) = false := by simp [hb]
      have h2 : (decide (b ∉ pre ++ [i])) = false := by simp [hb]
      rw [List.filter_cons, h1, if_neg (by simp), List.filter_cons, h2, if_neg (by simp)]
      exact ih hnd.2
    · have h1 : (decide (b ∉ pre)) = true := by simp [hb]
      rw [List.filter_cons, h1, if_pos rfl]
      by_cases hbi : b = i
      · subst hbi
        rw [List.erase_cons_head]
        have h2 : (decide (b ∉ pre ++ [b])) = false := by simp
        rw [List.filter_cons, h2, if_neg (by simp)]
        exact filter_not_mem_grow bs pre b hnd.1
      · rw [List.erase_cons_tail (by simp [hbi])]
        have h2 : (decide (b ∉ pre ++ [i])) = true := by simp [hb, hbi]
        rw [List.filter_cons, h2, if_pos rfl, ih hnd.2]

/-- Erasing each member of `rest` in turn from `keep ++ rest` yields
`keep`, when `rest` has no duplicates and is disjoint from `keep`. -/
theorem erase_fold_keep : ∀ (rest keep : List String), rest.Nodup →
    (∀ x ∈ rest, x ∉ keep) →
    rest.foldl (fun st i => st.erase i) (keep ++ rest) = keep
  | [], keep, _, _ => by simp
  | r :: rest', keep, hnd, hdisj => by
    rw [List.nodup_cons] at hnd
    have h1 : (keep ++ r :: rest').erase r = keep ++ rest' := by
      rw [List.erase_append_right _ (hdisj r (List.mem_cons_self r rest')),
        List.erase_cons_head]
    show rest'.foldl (fun st i => st.erase i) ((keep ++ r :: rest').erase r) = keep
    rw [h1]
    exact erase_fold_keep rest' keep hnd.2 (fun x hx => hdisj x (List.mem_cons_of_mem r hx))

theorem removeShape_worldW (s : Board) (i : String) : (removeShape s i).worldW = s.worldW := rfl

theorem removeShape_worldH (s : Board) (i : String) : (removeShape s i).worldH = s.worldH := rfl

/-- A fold of `_removeShape` erases exactly the listed ids from the stack
and leaves every other model untouched. -/
theorem foldRemove_spec : ∀ (R : List String) (s : Board),
    (R.foldl removeShape s).worldW = s.worldW ∧
    (R.foldl removeShape s).worldH = s.worldH ∧
    (R.foldl removeShape s).stack = R.foldl (fun st i => st.erase i) s.stack ∧
    (∀ j, j ∉ R → getShapeModel (R.foldl removeShape s) j = getShapeModel s j)
  | [], s => ⟨rfl, rfl, rfl, fun _ _ => rfl⟩
  | r :: R', s => by
    have ih := foldRemove_spec R' (removeShape s r)
    refine ⟨ih.1, ih.2.1, ih.2.2.1, ?_⟩
    intro j hj
    simp only [List.mem_cons] at hj
    push_neg at hj
    show getShapeModel (R'.foldl removeShape (removeShape s r)) j = _
    rw [ih.2.2.2 j hj.2]
    show lookupShape (eraseShape s.shapes r) j = lookupShape s.shapes j
    exact lookupShape_eraseShape_ne s.shapes r j hj.1

/-- Characterisation of the upsert pass of `applySnapshot` over a suffix
`l` of the sorted input whose `z` ranks continue the already-processed
prefix `pre`: the stack becomes the processed ids followed by the
untouched remainder of the original stack, and each processed id stores
its merged model. -/
theorem foldUpsert_spec : ∀ (l : List InModel) (s : Board) (pre base : List String),
    s.stack = pre ++ base.filter (fun x => decide (x ∉ pre)) →
    base.Nodup →
    (pre ++ l.map (·.id)).Nodup →
    l.map (·.z) = (List.range' pre.length l.length).map (fun k : Nat => (some (Int.ofNat k) : Option Int)) →
    (l.foldl upsertCard s).worldW = s.worldW ∧
    (l.foldl upsertCard s).worldH = s.worldH ∧
    (l.foldl upsertCard s).stack =
      (pre ++ l.map (·.id)) ++ base.filter (fun x => decide (x ∉ pre ++ l.map (·.id))) ∧
    (∀ j, j ∉ l.map (·.id) → getShapeModel (l.foldl upsertCard s) j = getShapeModel s j) ∧
    (∀ e ∈ l, ∃ prev len, getShapeModel (l.foldl upsertCard s) e.id =
        some (upsertModel s.worldW s.worldH prev e len))
  | [], s, pre, base, hs, _, _, _ => by
    refine ⟨rfl, rfl, ?_, fun _ _ => rfl, fun e he => absurd he (List.not_mem_nil e)⟩
    simpa using hs
  | e :: l', s, pre, base, hs, hbase, hnd, hz => by
    -- decompose the rank hypothesis
    rw [List.map_cons, List.length_cons, List.range'_succ, List.map_cons,
      List.cons.injEq] at hz
    -- the merged model has rank pre.length
    have hmz : (upsertModel s.worldW s.worldH (getShapeModel s e.id) e s.stack.length).z =
        (pre.length : Int) := by
      rw [upsertModel_z, hz.1]; rfl
    have hid_pre : e.id ∉ pre := by
      rw [List.nodup_append] at hnd
      exact fun hc => hnd.2.2 hc (List.mem_cons_self _ _)
    have hfl : (base.filter (fun x => decide (x ∉ pre))).length + pre.length =
        s.stack.length := by
      rw [hs, List.length_append]; omega
    -- the stack after upserting e
    have hstack1 : (upsertCard s e).stack =
        (pre ++ [e.id]) ++ base.filter (fun x => decide (x ∉ pre ++ [e.id])) := by
      by_cases he : e.id ∈ s.stack
      · rw [upsertCard_stack, if_pos he, moveToIndex_eq _ _ _ he, hmz]
        have herase : s.stack.erase e.id =
            pre ++ base.filter (fun x => decide (x ∉ pre ++ [e.id])) := by
          rw [hs, List.erase_append_right _ hid_pre,
            filter_not_mem_erase base pre e.id hbase]
        rw [herase]
        rw [spliceIdx_natCast _ _ (by rw [List.length_append]; exact Nat.le_add_right _ _)]
        rw [insertAt_length_append, List.append_assoc, List.singleton_append]
      · rw [upsertCard_stack, if_neg he,
          moveToIndex_eq _ _ _ (List.mem_append_right _ (List.mem_singleton_self e.id)), hmz]
        have hid_base : e.id ∉ base := by
          intro hc
          refine he ?_
          rw [hs]
          refine List.mem_append_right _ ?_
          rw [List.mem_filter]
          exact ⟨hc, by simp [hid_pre]⟩
        have herase : (s.stack ++ [e.id]).erase e.id = s.stack := by
          rw [List.erase_append_right _ he, List.erase_cons_head, List.append_nil]
        rw [herase, hs]
        rw [spliceIdx_natCast _ _ (by rw [List.length_append]; exact Nat.le_add_right _ _)]
        rw [insertAt_length_append, filter_not_mem_grow base pre e.id hid_base,
          List.append_assoc, List.singleton_append]
    -- apply the induction hypothesis to the state after upserting e
    have hnd' : ((pre ++ [e.id]) ++ l'.map (·.id)).Nodup := by
      rw [List.append_assoc, List.singleton_append]
      exact hnd
    have hz' : l'.map (·.z) =
        (List.range' (pre ++ [e.id]).length l'.length).map (fun k : Nat => (some (Int.ofNat k) : Option Int)) := by
      rw [List.length_append, List.length_singleton]
      exact hz.2
    have ih := foldUpsert_spec l' (upsertCard s e) (pre ++ [e.id]) base hstack1 hbase hnd' hz'
    have hWw : (upsertCard s e).worldW = s.worldW := rfl
    have hWh : (upsertCard s e).worldH = s.worldH := rfl
    have hfold : (e :: l').foldl upsertCard s = l'.foldl upsertCard (upsertCard s e) := rfl
    have he_notin : e.id ∉ l'.map (·.id) := by
      rw [List.nodup_append] at hnd
      have h2 := hnd.2.1
      rw [List.map_cons, List.nodup_cons] at h2
      exact h2.1
    refine ⟨?_, ?_, ?_, ?_, ?_⟩
    · rw [hfold, ih.1, hWw]
    · rw [hfold, ih.2.1, hWh]
    · rw [hfold, ih.2.2.1, List.append_assoc pre [e.id], List.singleton_append,
        List.map_cons]
    · intro j hj
      rw [List.map_cons, List.mem_cons] at hj
      push_neg at hj
      rw [hfold, ih.2.2.2.1 j hj.2]
      show lookupShape (setShape s.shapes e.id _) j = _
      exact lookupShape_setShape_ne _ _ _ _ hj.1
    · intro e' he'
      rcases List.mem_cons.mp he' with he' | he'
      · subst he'
        refine ⟨getShapeModel s e'.id, s.stack.length, ?_⟩
        rw [hfold, ih.2.2.2.1 e'.id he_notin]
        exact getShapeModel_upsertCard_self s e'
      · rcases ih.2.2.2.2 e' he' with ⟨prev, len, hlook⟩
        refine ⟨prev, len, ?_⟩
        rw [hfold, hlook, hWw, hWh]

theorem applySnapshot_eq (s : Board) (arr : List InModel) :
    applySnapshot s arr =
      (((sortByZ arr).foldl upsertCard s).stack.filter
          (fun i => !(((sortByZ arr).map (·.id)).contains i))).foldl removeShape
        ((sortByZ arr).foldl upsertCard s) := rfl

/-- Characterisation of `applySnapshot` on a snapshot whose sorted `z`
values are exactly the dense ranks `0, …, n−1`: the final stack is the
sorted id list and each id stores its merged model. -/
theorem applySnapshot_spec (s : Board) (arr : List InModel)
    (hnds : s.stack.Nodup)
    (hids : ((sortByZ arr).map (·.id)).Nodup)
    (hz : (sortByZ arr).map (·.z) =
      (List.range' 0 (sortByZ arr).length).map (fun k : Nat => (some (Int.ofNat k) : Option Int))) :
    (applySnapshot s arr).worldW = s.worldW ∧
    (applySnapshot s arr).worldH = s.worldH ∧
    (applySnapshot s arr).stack = (sortByZ arr).map (·.id) ∧
    (∀ e ∈ sortByZ arr, ∃ prev len, getShapeModel (applySnapshot s arr) e.id =
        some (upsertModel s.worldW s.worldH prev e len)) := by
  have hbase : s.stack = ([] : List String) ++
      s.stack.filter (fun x => decide (x ∉ ([] : List String))) := by
    rw [List.nil_append]
    exact (List.filter_eq_self.mpr (fun a _ => by simp)).symm
  have hnd0 : (([] : List String) ++ (sortByZ arr).map (·.id)).Nodup := by
    rw [List.nil_append]; exact hids
  have hz0 : (sortByZ arr).map (·.z) =
      (List.range' (([] : List String)).length (sortByZ arr).length).map
        (fun k : Nat => (some (Int.ofNat k) : Option Int)) := hz
  have hup := foldUpsert_spec (sortByZ arr) s [] s.stack hbase hnds hnd0 hz0
  rw [List.nil_append] at hup
  set ids := (sortByZ arr).map (·.id) with hidsdef
  set s1 := (sortByZ arr).foldl upsertCard s with hs1def
  set rest := s.stack.filter (fun x => decide (x ∉ ids)) with hrestdef
  have hdisj : ∀ x ∈ rest, x ∉ ids := by
    intro x hx
    rw [hrestdef, List.mem_filter] at hx
    simpa using hx.2
  have hfilters : s1.stack.filter (fun i => !(ids.contains i)) = rest := by
    rw [hup.2.2.1, List.filter_append]
    have h1 : ids.filter (fun i => !(ids.contains i)) = [] := by
      rw [List.filter_eq_nil_iff]
      intro a ha
      simp [List.contains, List.elem_iff, ha]
    have h2 : rest.filter (fun i => !(ids.contains i)) = rest := by
      rw [List.filter_eq_self]
      intro a ha
      simp [List.contains, List.elem_iff, hdisj a ha]
    rw [h1, h2, List.nil_append]
  have hrm := foldRemove_spec rest s1
  have hsnap : applySnapshot s arr = rest.foldl removeShape s1 := by
    rw [applySnapshot_eq, hfilters]
  refine ⟨?_, ?_, ?_, ?_⟩
  · rw [hsnap, hrm.1, hup.1]
  · rw [hsnap, hrm.2.1, hup.2.1]
  · rw [hsnap, hrm.2.2.1, hup.2.2.1]
    exact erase_fold_keep rest ids (hnds.filter _) hdisj
  · intro e he
    rcases hup.2.2.2.2 e he with ⟨prev, len, hlook⟩
    refine ⟨prev, len, ?_⟩
    rw [hsnap, hrm.2.2.2 e.id (fun hc => hdisj e.id hc (List.mem_map_of_mem _ he)), hlook]

/-- Re-applying the sorted dense-`z` upserts to a board whose stack is
already the sorted id list and whose models are already the merged ones
changes nothing: each upsert re-merges to the same model and moves each
node to the index it already occupies. -/
theorem foldUpsert_fixed : ∀ (l : List InModel) (s : Board) (pre : List String),
    s.stack = pre ++ l.map (·.id) →
    s.stack.Nodup →
    l.map (·.z) =
      (List.range' pre.length l.length).map (fun k : Nat => (some (Int.ofNat k) : Option Int)) →
    (∀ e ∈ l, ∃ prev len, getShapeModel s e.id =
        some (upsertModel s.worldW s.worldH prev e len)) →
    l.foldl upsertCard s = s
  | [], s, pre, _, _, _, _ => rfl
  | e :: l', s, pre, hs, hnds, hz, hchar => by
    rw [List.map_cons, List.length_cons, List.range'_succ, List.map_cons,
      List.cons.injEq] at hz
    rcases hchar e (List.mem_cons_self e l') with ⟨prev, len, hm⟩
    have he : e.id ∈ s.stack := by
      rw [hs, List.map_cons]
      exact List.mem_append_right _ (List.mem_cons_self _ _)
    have hid_pre : e.id ∉ pre := by
      rw [hs, List.map_cons] at hnds
      rw [List.nodup_append] at hnds
      exact fun hc => hnds.2.2 hc (List.mem_cons_self _ _)
    -- the re-merged model is the stored one
    have hmerge : upsertModel s.worldW s.worldH (getShapeModel s e.id) e s.stack.length =
        upsertModel s.worldW s.worldH prev e len := by
      rw [hm]
      exact upsertModel_absorb s.worldW s.worldH prev e len s.stack.length
    have hmz : (upsertModel s.worldW s.worldH (getShapeModel s e.id) e s.stack.length).z =
        (pre.length : Int) := by
      rw [upsertModel_z, hz.1]; rfl
    have herase : s.stack.erase e.id = pre ++ l'.map (·.id) := by
      rw [hs, List.map_cons, List.erase_append_right _ hid_pre, List.erase_cons_head]
    have hfix : upsertCard s e = s := by
      refine Board.ext rfl rfl ?_ ?_
      · show setShape s.shapes e.id _ = s.shapes
        rw [hmerge]
        exact setShape_lookup_eq s.shapes e.id _ hm
      · show (if e.id ∈ s.stack then _ else _) = s.stack
        rw [if_pos he, moveToIndex_eq _ _ _ he, hmz, herase]
        rw [spliceIdx_natCast _ _ (by rw [List.length_append]; exact Nat.le_add_right _ _)]
        rw [insertAt_length_append, hs, List.map_cons]
    show l'.foldl upsertCard (upsertCard s e) = s
    rw [hfix]
    refine foldUpsert_fixed l' s (pre ++ [e.id]) ?_ hnds ?_ ?_
    · rw [hs, List.map_cons, List.append_assoc, List.singleton_append]
    · rw [List.length_append, List.length_singleton]
      exact hz.2
    · intro e' he'
      exact hchar e' (List.mem_cons_of_mem e he')

/-- One axis of `_clampCamera`: the clamped offset keeps the visible
interval inside the world interval, provided one viewport length fits in
the world at the current zoom. -/
theorem clampAxis_bounds (v W e : ℚ) (he : e ≤ W) :
    0 ≤ min (max 0 v) (max 0 (W - e)) ∧ min (max 0 v) (max 0 (W - e)) + e ≤ W := by
  constructor
  · exact le_min (le_max_left 0 v) (le_max_left 0 (W - e))
  · have h1 : min (max 0 v) (max 0 (W - e)) ≤ max 0 (W - e) := min_le_right _ _
    have h2 : max 0 (W - e) = W - e := max_eq_right (by linarith)
    linarith [h1.trans_eq h2]

/-! ## Claim C1: clamp totality and Scenario A -/

/-- C1.  For every `0 < w ≤ worldW`, `0 < h ≤ worldH` and every finite
`cx, cy`, `_clampCardCenter` returns `cx'` in `[w/2, worldW − w/2]` and
`cy'` in `[h/2, worldH − h/2]`; and in a 6000×6000 world, upserting a card
with `w=300, h=150, cx=−100, cy=−100` stores `cx=150, cy=75`. -/
theorem clampCardCenter_total (W H w h cx cy : ℚ)
    (hw0 : 0 < w) (hwW : w ≤ W) (hh0 : 0 < h) (hhH : h ≤ H) :
    (w / 2 ≤ (clampCardCenter W H cx cy w h).1 ∧
      (clampCardCenter W H cx cy w h).1 ≤ W - w / 2 ∧
      h / 2 ≤ (clampCardCenter W H cx cy w h).2 ∧
      (clampCardCenter W H cx cy w h).2 ≤ H - h / 2) ∧
    (getShapeModel
        (applySnapshot boardInit
          [{ id := "A", w := some 300, h := some 150,
             cx := some (-100), cy := some (-100) }])
        "A").map (fun m => (m.cx, m.cy)) = some (150, 75) := by
  refine ⟨⟨?_, ?_, ?_, ?_⟩, by
    norm_num +decide [applySnapshot, sortByZ, insAfterZ, upsertCard, upsertModel, getShapeModel,
      lookupShape, setShape, clampCardCenter, boardInit, moveToIndex, spliceIdx, insertAt,
      removeShape, eraseShape, Option.or]⟩
  · exact le_min (le_max_left _ _) (by linarith)
  · exact min_le_right _ _
  · exact le_min (le_max_left _ _) (by linarith)
  · exact min_le_right _ _

/-- Witness for C1 at `W = H = 6000`, `w = 300`, `h = 150`,
`cx = cy = −100`. -/
theorem clampCardCenter_total_witness :
    150 ≤ (clampCardCenter 6000 6000 (-100) (-100) 300 150).1 ∧
    (clampCardCenter 6000 6000 (-100) (-100) 300 150).1 ≤ 5850 := by
  have h := clampCardCenter_total 6000 6000 300 150 (-100) (-100)
    (by norm_num) (by norm_num) (by norm_num) (by norm_num)
  refine ⟨?_, ?_⟩
  · have h1 := h.1.1; norm_num at h1; exact h1
  · have h2 := h.1.2.1; norm_num at h2; exact h2

/-! ## Claim C2: wheel-zoom anchor preservation -/

/-- C2 counterexample.  Wheel-zooming out (factor 1/5) at screen point
(800,600) with the camera at the world origin: the world point under the
pointer moves from 800 to 4000 (by 3200 world units), because
`_animateZoomTo` clamps the re-solved camera back into the world.  The
claimed sub-`1e-3` anchor preservation fails. -/
theorem wheelZoom_anchor_cex :
    ¬ (|clientToWorldX
          (wheelZoom
            { worldW := 6000, worldH := 6000, vw := 800, vh := 600,
              hardMin := 1/10, zmax := 5, zoom := 1, camX := 0, camY := 0,
              minZoom := 2/15 } 800 600 (1/5)) 800 -
        clientToWorldX
          { worldW := 6000, worldH := 6000, vw := 800, vh := 600,
            hardMin := 1/10, zmax := 5, zoom := 1, camX := 0, camY := 0,
            minZoom := 2/15 } 800| < 1/1000) := by
  norm_num [wheelZoom, updateMinZoom, getFitMinZoom, animateZoomToFinal, clampCamera,
    clientToWorldX, abs_sub_lt_iff]

/-- C2 amended.  When the camera offset re-solved from the wheel anchor
already lies inside the clamp bounds at the target zoom, the world point
under the pointer is exactly preserved (difference 0 < 1e-3); near the
world edges the camera clamp can move it arbitrarily far (see the
counterexample). -/
theorem wheelZoom_anchor_preserved (c : Cam) (px py factor t : ℚ)
    (ht : t = max (updateMinZoom c).minZoom (min c.zmax (c.zoom * factor)))
    (hx0 : 0 ≤ c.camX + px / c.zoom - px / t)
    (hx1 : c.camX + px / c.zoom - px / t ≤ c.worldW - c.vw / t)
    (hy0 : 0 ≤ c.camY + py / c.zoom - py / t)
    (hy1 : c.camY + py / c.zoom - py / t ≤ c.worldH - c.vh / t) :
    |clientToWorldX (wheelZoom c px py factor) px - clientToWorldX c px| < 1/1000 ∧
    |clientToWorldY (wheelZoom c px py factor) py - clientToWorldY c py| < 1/1000 := by
  have hax : clientToWorldX (wheelZoom c px py factor) px = clientToWorldX c px := by
    simp only [wheelZoom, animateZoomToFinal, clampCamera, clientToWorldX,
      updateMinZoom_camX, updateMinZoom_camY, updateMinZoom_zoom, updateMinZoom_zmax,
      updateMinZoom_worldW, updateMinZoom_worldH, updateMinZoom_vw, updateMinZoom_vh]
    rw [← ht]
    rw [max_eq_right hx0, min_eq_left]
    · ring
    · have : (0:ℚ) ≤ c.worldW - c.vw / t := le_trans hx0 hx1
      rw [max_eq_right this]
      exact hx1
  have hay : clientToWorldY (wheelZoom c px py factor) py = clientToWorldY c py := by
    simp only [wheelZoom, animateZoomToFinal, clampCamera, clientToWorldX, clientToWorldY,
      updateMinZoom_camX, updateMinZoom_camY, updateMinZoom_zoom, updateMinZoom_zmax,
      updateMinZoom_worldW, updateMinZoom_worldH, updateMinZoom_vw, updateMinZoom_vh]
    rw [← ht]
    rw [max_eq_right hy0, min_eq_left]
    · ring
    · have : (0:ℚ) ≤ c.worldH - c.vh / t := le_trans hy0 hy1
      rw [max_eq_right this]
      exact hy1
  rw [hax, hay]
  norm_num

/-- Witness for the amended C2: doubling the zoom at the viewport center
with the camera well inside the world preserves the anchor. -/
theorem wheelZoom_anchor_preserved_witness :
    |clientToWorldX
        (wheelZoom
          { worldW := 6000, worldH := 6000, vw := 800, vh := 600,
            hardMin := 1/10, zmax := 5, zoom := 1, camX := 2000, camY := 2000,
            minZoom := 2/15 } 400 300 2) 400 -
      clientToWorldX
        { worldW := 6000, worldH := 6000, vw := 800, vh := 600,
          hardMin := 1/10, zmax := 5, zoom := 1, camX := 2000, camY := 2000,
          minZoom := 2/15 } 400| < 1/1000 :=
  (wheelZoom_anchor_preserved
    { worldW := 6000, worldH := 6000, vw := 800, vh := 600,
      hardMin := 1/10, zmax := 5, zoom := 1, camX := 2000, camY := 2000,
      minZoom := 2/15 } 400 300 2 2
    (by norm_num [updateMinZoom, getFitMinZoom]) (by norm_num) (by norm_num)
    (by norm_num) (by norm_num)).1

/-! ## Claim C6: zoom stays within bounds under setZoomPct -/

/-- C6.  Starting from a zoom inside `[minZoom, CFG.zoom.max]`, every
eased step of the `setZoomPct` animation (including the final state at
`t = 1`) keeps the zoom inside `[minZoom, CFG.zoom.max]`, for every
requested percentage. -/
theorem setZoomPct_bounds (c : Cam) (pct t : ℚ)
    (hz1 : c.minZoom ≤ c.zoom) (hz2 : c.zoom ≤ c.zmax)
    (ht0 : 0 ≤ t) (ht1 : t ≤ 1) :
    c.minZoom ≤ setZoomPctZoomAt c pct t ∧ setZoomPctZoomAt c pct t ≤ c.zmax := by
  have htl : c.minZoom ≤ setZoomPctTarget c pct := le_max_left _ _
  have htu : setZoomPctTarget c pct ≤ c.zmax := by
    unfold setZoomPctTarget
    exact max_le (hz1.trans hz2) (min_le_left _ _)
  have he0 : 0 ≤ easeOutCubic t := by
    unfold easeOutCubic
    nlinarith [sq_nonneg (1 - t), sq_nonneg t]
  have he1 : easeOutCubic t ≤ 1 := by
    unfold easeOutCubic
    nlinarith [pow_nonneg (by linarith : (0:ℚ) ≤ 1 - t) 3]
  unfold setZoomPctZoomAt
  constructor
  · nlinarith [mul_nonneg (sub_nonneg.mpr htl) he0,
      mul_nonneg (sub_nonneg.mpr hz1) (sub_nonneg.mpr he1)]
  · nlinarith [mul_nonneg (sub_nonneg.mpr htu) he0,
      mul_nonneg (sub_nonneg.mpr hz2) (sub_nonneg.mpr he1)]

/-- Witness for C6: requesting 5000% from zoom 1 stays within
`[2/15, 5]` at the mid-animation step `t = 1/2`. -/
theorem setZoomPct_bounds_witness :
    (2/15 : ℚ) ≤ setZoomPctZoomAt
        { worldW := 6000, worldH := 6000, vw := 800, vh := 600,
          hardMin := 1/10, zmax := 5, zoom := 1, camX := 0, camY := 0,
          minZoom := 2/15 } 5000 (1/2) ∧
      setZoomPctZoomAt
        { worldW := 6000, worldH := 6000, vw := 800, vh := 600,
          hardMin := 1/10, zmax := 5, zoom := 1, camX := 0, camY := 0,
          minZoom := 2/15 } 5000 (1/2) ≤ 5 :=
  setZoomPct_bounds
    { worldW := 6000, worldH := 6000, vw := 800, vh := 600,
      hardMin := 1/10, zmax := 5, zoom := 1, camX := 0, camY := 0,
      minZoom := 2/15 } 5000 (1/2)
    (by norm_num) (by norm_num) (by norm_num) (by norm_num)

/-! ## Claim C7: the clamped camera keeps the view inside the world -/

/-- C7.  Whenever one viewport dimension (in world units) fits inside the
world — which holds at every zoom `≥ minZoom ≥ vw/worldW, vh/worldH` —
`_clampCamera` (the single clamp used by `setCamera`, pan, zoom, resize
and scroll sync) leaves the visible rectangle
`[camX, camX + vw/zoom] × [camY, camY + vh/zoom]` inside
`[0, worldW] × [0, worldH]`; in particular this holds after `setCamera`. -/
theorem clampCamera_inside (c : Cam) (x y : ℚ)
    (hw : c.vw / c.zoom ≤ c.worldW) (hh : c.vh / c.zoom ≤ c.worldH) :
    (0 ≤ (setCamera c x y).camX ∧
      (setCamera c x y).camX + c.vw / c.zoom ≤ c.worldW ∧
      0 ≤ (setCamera c x y).camY ∧
      (setCamera c x y).camY + c.vh / c.zoom ≤ c.worldH) ∧
    (0 ≤ (clampCamera c).camX ∧
      (clampCamera c).camX + c.vw / c.zoom ≤ c.worldW ∧
      0 ≤ (clampCamera c).camY ∧
      (clampCamera c).camY + c.vh / c.zoom ≤ c.worldH) := by
  refine ⟨⟨?_, ?_, ?_, ?_⟩, ⟨?_, ?_, ?_, ?_⟩⟩
  · exact (clampAxis_bounds x c.worldW (c.vw / c.zoom) hw).1
  · exact (clampAxis_bounds x c.worldW (c.vw / c.zoom) hw).2
  · exact (clampAxis_bounds y c.worldH (c.vh / c.zoom) hh).1
  · exact (clampAxis_bounds y c.worldH (c.vh / c.zoom) hh).2
  · exact (clampAxis_bounds c.camX c.worldW (c.vw / c.zoom) hw).1
  · exact (clampAxis_bounds c.camX c.worldW (c.vw / c.zoom) hw).2
  · exact (clampAxis_bounds c.camY c.worldH (c.vh / c.zoom) hh).1
  · exact (clampAxis_bounds c.camY c.worldH (c.vh / c.zoom) hh).2

/-- Witness for C7: `setCamera(-500, 9999)` on an 800×600 viewport at
zoom 1 in the 6000×6000 world stays inside the world. -/
theorem clampCamera_inside_witness :
    0 ≤ (setCamera
        { worldW := 6000, worldH := 6000, vw := 800, vh := 600,
          hardMin := 1/10, zmax := 5, zoom := 1, camX := 0, camY := 0,
          minZoom := 2/15 } (-500) 9999).camX ∧
      (setCamera
        { worldW := 6000, worldH := 6000, vw := 800, vh := 600,
          hardMin := 1/10, zmax := 5, zoom := 1, camX := 0, camY := 0,
          minZoom := 2/15 } (-500) 9999).camY + 600 / 1 ≤ 6000 := by
  have h := clampCamera_inside
    { worldW := 6000, worldH := 6000, vw := 800, vh := 600,
      hardMin := 1/10, zmax := 5, zoom := 1, camX := 0, camY := 0,
      minZoom := 2/15 } (-500) 9999 (by norm_num) (by norm_num)
  exact ⟨h.1.1, by simpa using h.1.2.2.2⟩

/-! ## Claim C3: dense z invariant and Scenario B -/

/-- C3.  After any sequence of upsert / remove / drag-gesture operations
on a fresh board, `getCardOrder()` has one entry per live shape, its `z`
values are exactly `{0, …, N−1}` (N = number of live shapes, 0 = back),
with no duplicate and no missing id; and Scenario B: inserting `A,B,C`
with `z = 0,1,2` and removing `B` yields `[{A,0},{C,1}]`. -/
theorem getCardOrder_dense (ops : List BoardOp) :
    ((getCardOrder (applyOps boardInit ops)).map Prod.snd =
        List.range (applyOps boardInit ops).shapes.length) ∧
    ((getCardOrder (applyOps boardInit ops)).map Prod.fst).Nodup ∧
    (∀ i, i ∈ (getCardOrder (applyOps boardInit ops)).map Prod.fst ↔
        (getShapeModel (applyOps boardInit ops) i).isSome) ∧
    getCardOrder
        (applyPatch
          (applyPatch boardInit
            [{ id := "A", z := some 0 }, { id := "B", z := some 1 },
             { id := "C", z := some 2 }] [] [])
          [] [] ["B"]) = [("A", 0), ("C", 1)] := by
  have hWF := WF_applyOps ops boardInit WF_boardInit
  have hperm := WF_stack_perm_keys _ hWF
  obtain ⟨h1, h2, h3, h4⟩ := hWF
  refine ⟨?_, ?_, ?_, ?_⟩
  · rw [getCardOrder_map_snd]
    congr 1
    rw [hperm.length_eq, List.length_map]
  · rw [getCardOrder_map_fst]
    exact h1
  · intro i
    rw [getCardOrder_map_fst]
    unfold getShapeModel
    rw [lookupShape_isSome_iff]
    exact ⟨h3 i, h4 i⟩
  · norm_num +decide [applyPatch, upsertCard, upsertModel, getShapeModel, lookupShape,
      setShape, clampCardCenter, boardInit, moveToIndex, spliceIdx, insertAt, removeShape,
      eraseShape, getCardOrder, withIdx, Option.or]

/-- Witness for C3: after upserting two default cards, `getCardOrder`
ranks are `{0, 1}`, ids are distinct, and exactly ids `A`, `B` are live. -/
theorem getCardOrder_dense_witness :
    ((getCardOrder (applyOps boardInit
        [BoardOp.upsertOp { id := "A" }, BoardOp.upsertOp { id := "B" }])).map Prod.snd =
      List.range (applyOps boardInit
        [BoardOp.upsertOp { id := "A" }, BoardOp.upsertOp { id := "B" }]).shapes.length) ∧
    ((getCardOrder (applyOps boardInit
        [BoardOp.upsertOp { id := "A" }, BoardOp.upsertOp { id := "B" }])).map Prod.fst).Nodup :=
  ⟨(getCardOrder_dense [BoardOp.upsertOp { id := "A" }, BoardOp.upsertOp { id := "B" }]).1,
   (getCardOrder_dense [BoardOp.upsertOp { id := "A" }, BoardOp.upsertOp { id := "B" }]).2.1⟩

/-! ## Claim C9: upsert merge and numeric defaults -/

/-- C9.  Every upsert (the single primitive behind `applySnapshot`,
`applyPatch.add` and `applyPatch.update`) shallow-merges the incoming
partial model over the previous stored model (`{kind:'card'}` defaults if
new), fills in `w = 300` / `h = 150` when absent, and clamps `(cx, cy)`
against the merged `(w, h)` afterwards. -/
theorem upsertCard_merge_defaults (s : Board) (e : InModel) :
    ∃ m, getShapeModel (upsertCard s e) e.id = some m ∧
      m.w = (e.w.or ((getShapeModel s e.id).map (·.w))).getD 300 ∧
      m.h = (e.h.or ((getShapeModel s e.id).map (·.h))).getD 150 ∧
      m.kind = (e.kind.or ((getShapeModel s e.id).map (·.kind))).getD "card" ∧
      m.title = e.title.or ((getShapeModel s e.id).bind (·.title)) ∧
      m.styleKey = e.styleKey.or ((getShapeModel s e.id).bind (·.styleKey)) ∧
      m.stroke = e.stroke.or ((getShapeModel s e.id).bind (·.stroke)) ∧
      m.rot = e.rot.or ((getShapeModel s e.id).bind (·.rot)) ∧
      (m.cx, m.cy) = clampCardCenter s.worldW s.worldH
        ((e.cx.or ((getShapeModel s e.id).map (·.cx))).getD (m.w / 2))
        ((e.cy.or ((getShapeModel s e.id).map (·.cy))).getD (m.h / 2)) m.w m.h ∧
      applyPatch s [e] [] [] = upsertCard s e ∧
      applyPatch s [] [e] [] = upsertCard s e :=
  ⟨upsertModel s.worldW s.worldH (getShapeModel s e.id) e s.stack.length,
    getShapeModel_upsertCard_self s e,
    rfl, rfl, rfl, rfl, rfl, rfl, rfl, rfl, rfl, rfl⟩

/-! ## Claim C10: a new card without a position sits at the top-left -/

/-- C10.  A new card (no previous model) upserted without `cx`/`cy`
defaults its center to `(w/2, h/2)` — after clamping it is stored flush
against the world's top-left corner with its full extent inside the
world, provided its (defaulted) dimensions fit in the world. -/
theorem upsertCard_new_default_position (s : Board) (e : InModel)
    (hnew : getShapeModel s e.id = none) (hcx : e.cx = none) (hcy : e.cy = none)
    (hw0 : 0 < e.w.getD 300) (hwW : e.w.getD 300 ≤ s.worldW)
    (hh0 : 0 < e.h.getD 150) (hhH : e.h.getD 150 ≤ s.worldH) :
    ∃ m, getShapeModel (upsertCard s e) e.id = some m ∧
      m.w = e.w.getD 300 ∧ m.h = e.h.getD 150 ∧
      m.cx = m.w / 2 ∧ m.cy = m.h / 2 ∧
      m.cx - m.w / 2 = 0 ∧ m.cy - m.h / 2 = 0 ∧
      m.cx + m.w / 2 ≤ s.worldW ∧ m.cy + m.h / 2 ≤ s.worldH := by
  have hm := getShapeModel_upsertCard_self s e
  rw [hnew] at hm
  set m := upsertModel s.worldW s.worldH none e s.stack.length with hmdef
  have hw : m.w = e.w.getD 300 := by simp [hmdef, upsertModel]
  have hh : m.h = e.h.getD 150 := by simp [hmdef, upsertModel]
  have hcx2 : m.cx = e.w.getD 300 / 2 := by
    simp only [hmdef, upsertModel, hcx, Option.map_none', Option.or_none,
      Option.getD_none, clampCardCenter, max_self]
    exact min_eq_left (by linarith)
  have hcy2 : m.cy = e.h.getD 150 / 2 := by
    simp only [hmdef, upsertModel, hcy, Option.map_none', Option.or_none,
      Option.getD_none, clampCardCenter, max_self]
    exact min_eq_left (by linarith)
  exact ⟨m, hm, hw, hh, by rw [hcx2, hw], by rw [hcy2, hh],
    by rw [hcx2, hw]; ring, by rw [hcy2, hh]; ring,
    by rw [hcx2, hw]; linarith, by rw [hcy2, hh]; linarith⟩

/-- Witness for C10: upserting `{id:"N"}` into the fresh 6000×6000 board
stores it at `(150, 75)` with edges on the world border. -/
theorem upsertCard_new_default_position_witness :
    ∃ m, getShapeModel (upsertCard boardInit { id := "N" }) "N" = some m ∧
      m.w = 300 ∧ m.h = 150 ∧ m.cx = m.w / 2 ∧ m.cy = m.h / 2 ∧
      m.cx - m.w / 2 = 0 ∧ m.cy - m.h / 2 = 0 ∧
      m.cx + m.w / 2 ≤ 6000 ∧ m.cy + m.h / 2 ≤ 6000 := by
  have h := upsertCard_new_default_position boardInit { id := "N" }
    (by norm_num [getShapeModel, boardInit, lookupShape]) rfl rfl
    (by norm_num) (by norm_num [boardInit]) (by norm_num) (by norm_num [boardInit])
  simpa [boardInit] using h

/-! ## Claim C5: vetoed drag -/

/-- C5 counterexample.  The `dragstart` handler calls `node.moveToTop()`
before consulting the `onDragStart` hook, so a vetoed drag on a card that
is not already front-most does change the stack order (on a board with
stack `[A, B]`, a vetoed drag on `A` leaves the stack `[B, A]`); and
because `stopDrag()` fires the `dragend` pathway, `onDragEnd` is invoked
for the vetoed gesture. -/
theorem vetoDrag_stack_changes_cex :
    ((vetoDragStart (applyPatch boardInit [{ id := "A" }, { id := "B" }] [] []) "A").stack ≠
      (applyPatch boardInit [{ id := "A" }, { id := "B" }] [] []).stack) ∧
    BoardEvt.dragEndE "A" 150 75 ∈
      vetoDragStartEvents (applyPatch boardInit [{ id := "A" }, { id := "B" }] [] []) "A" := by
  constructor <;>
    norm_num +decide [vetoDragStart, vetoDragStartEvents, dragGesture, dragGestureEvents,
      dragMovesPos, normalizeCardOrder, applyOrder, getCardOrder, withIdx, applyPatch,
      upsertCard, upsertModel, getShapeModel, lookupShape, setShape, clampCardCenter,
      boardInit, moveToIndex, moveToTop, spliceIdx, insertAt, Option.or, List.erase]

/-- C5 amended.  For a drag vetoed by `onDragStart` returning `false` on
a shape whose stored center is already clamped (as every upsert-stored
center is): the shape's `(cx, cy)` is unchanged — the `dragend` pathway
merely re-commits the clamp of the unmoved position — and `onDrag` is
never invoked; but the gesture is not mutation-free: the shape was moved
to the front of the stack before the veto was evaluated, and the
`stopDrag`-triggered `dragend` fires `onDragEnd` and exactly one
`onZOrderChange`, renormalizing every model's `z` to its stack index. -/
theorem vetoDrag_commit_and_normalize (s : Board) (i : String) (m : CardModel)
    (hm : getShapeModel s i = some m) (hWF : WF s)
    (hcl : clampCardCenter s.worldW s.worldH m.cx m.cy m.w m.h = (m.cx, m.cy)) :
    (∃ m', getShapeModel (vetoDragStart s i) i = some m' ∧ m'.cx = m.cx ∧ m'.cy = m.cy) ∧
    (∀ ev ∈ vetoDragStartEvents s i, ∀ a b c, ev ≠ BoardEvt.dragE a b c) ∧
    (vetoDragStart s i).stack = moveToTop s.stack i ∧
    BoardEvt.dragStartE i m.cx m.cy ∈ vetoDragStartEvents s i ∧
    BoardEvt.dragEndE i m.cx m.cy ∈ vetoDragStartEvents s i ∧
    (vetoDragStartEvents s i).countP isZOrderE = 1 ∧
    (∀ p ∈ getCardOrder (vetoDragStart s i),
      ∃ m', getShapeModel (vetoDragStart s i) p.1 = some m' ∧ m'.z = (p.2 : Int)) := by
  have hkey : i ∈ s.shapes.map Prod.fst := by
    rw [← lookupShape_isSome_iff, show lookupShape s.shapes i = getShapeModel s i from rfl,
      hm]; rfl
  have hupd : { m with cx := (clampCardCenter s.worldW s.worldH m.cx m.cy m.w m.h).1,
                       cy := (clampCardCenter s.worldW s.worldH m.cx m.cy m.w m.h).2 } = m := by
    rw [hcl]
  have hs2 : vetoDragStart s i =
      normalizeCardOrder
        { s with stack := moveToTop s.stack i,
                 shapes := setShape s.shapes i
                   { m with cx := (clampCardCenter s.worldW s.worldH m.cx m.cy m.w m.h).1,
                            cy := (clampCardCenter s.worldW s.worldH m.cx m.cy m.w m.h).2 } } := by
    show dragGesture s i [] = _
    unfold dragGesture
    rw [hm]
    rfl
  have hs3 : vetoDragStart s i =
      normalizeCardOrder { s with stack := moveToTop s.stack i } := by
    rw [hs2, hupd, setShape_lookup_eq s.shapes i m hm]
  have hWFt : WF { s with stack := moveToTop s.stack i } :=
    WF_stack_shapes s s.shapes rfl _ (moveToTop_perm s.stack i) hWF
  obtain ⟨t1, t2, t3, t4⟩ := hWFt
  have horder : getCardOrder (vetoDragStart s i) =
      getCardOrder { s with stack := moveToTop s.stack i } := by
    rw [hs3]; rfl
  have hevs : vetoDragStartEvents s i =
      [BoardEvt.dragStartE i m.cx m.cy, BoardEvt.dragEndE i m.cx m.cy,
       BoardEvt.zOrderE (getCardOrder { s with stack := moveToTop s.stack i })] := by
    show dragGestureEvents s i [] = _
    unfold dragGestureEvents
    rw [hm]
    simp only [dragMovesPos, List.foldl_nil, List.map_nil, List.nil_append, getCardOrder]
    rw [hcl]
    rfl
  have hwrite : ∀ p ∈ getCardOrder { s with stack := moveToTop s.stack i },
      ∃ m', getShapeModel (vetoDragStart s i) p.1 = some m' ∧ m'.z = (p.2 : Int) := by
    intro p hp
    have hpmem : p.1 ∈ ({ s with stack := moveToTop s.stack i } : Board).stack := by
      have := List.mem_map_of_mem Prod.fst hp
      rwa [getCardOrder_map_fst] at this
    have hsome : (lookupShape s.shapes p.1).isSome := by
      rw [lookupShape_isSome_iff]
      exact t3 p.1 hpmem
    rcases Option.isSome_iff_exists.mp hsome with ⟨m0, hm0⟩
    refine ⟨{ m0 with z := (p.2 : Int) }, ?_, rfl⟩
    rw [hs3]
    show lookupShape (applyOrder s.shapes _) p.1 = _
    refine applyOrder_lookup_mem _ s.shapes ?_ p hp m0 hm0
    rw [getCardOrder_map_fst]
    exact t1
  refine ⟨?_, ?_, ?_, ?_, ?_, ?_, ?_⟩
  · -- the dragged card keeps its center, only its z is rewritten
    have hi : i ∈ ({ s with stack := moveToTop s.stack i } : Board).stack := by
      show i ∈ moveToTop s.stack i
      exact (moveToTop_perm s.stack i).mem_iff.mpr (hWF.2.2.2 i hkey)
    have := hi
    rw [← getCardOrder_map_fst { s with stack := moveToTop s.stack i }] at this
    rcases List.mem_map.mp this with ⟨p, hp, hfst⟩
    rcases hwrite p hp with ⟨m', hm', _⟩
    rw [hfst] at hm'
    have hm0 : lookupShape s.shapes p.1 = some m := by rw [hfst]; exact hm
    -- recompute m' from the stored model m
    have hsome : (lookupShape s.shapes p.1).isSome := by rw [hm0]; rfl
    refine ⟨{ m with z := (p.2 : Int) }, ?_, rfl, rfl⟩
    have hlook : lookupShape
        (applyOrder s.shapes (getCardOrder { s with stack := moveToTop s.stack i })) p.1 =
        some { m with z := (p.2 : Int) } := by
      refine applyOrder_lookup_mem _ s.shapes ?_ p hp m hm0
      rw [getCardOrder_map_fst]
      exact t1
    rw [hfst] at hlook
    rw [hs3]
    show lookupShape
        (applyOrder s.shapes (getCardOrder { s with stack := moveToTop s.stack i })) i = _
    exact hlook
  · intro ev hev a b c
    rw [hevs] at hev
    simp only [List.mem_cons, List.mem_singleton, List.not_mem_nil, or_false] at hev
    rcases hev with hev | hev | hev <;> simp [hev]
  · rw [hs3]; rfl
  · rw [hevs]; simp
  · rw [hevs]; simp
  · rw [hevs]
    simp [List.countP_cons, isZOrderE]
  · rw [horder]
    exact hwrite

/-- Witness for the amended C5 on the concrete two-card board: the
vetoed drag on `A` keeps its center, fires no `onDrag`, and emits one
z-order notification. -/
theorem vetoDrag_commit_and_normalize_witness :
    (∃ m', getShapeModel (vetoDragStart boardAB "A") "A" = some m' ∧
      m'.cx = cardA.cx ∧ m'.cy = cardA.cy) ∧
    (vetoDragStart boardAB "A").stack = moveToTop boardAB.stack "A" ∧
    (vetoDragStartEvents boardAB "A").countP isZOrderE = 1 := by
  have h := vetoDrag_commit_and_normalize boardAB "A" cardA
    (by norm_num +decide [getShapeModel, lookupShape, boardAB])
    (by decide)
    (by norm_num [clampCardCenter, boardAB, cardA])
  exact ⟨h.1, h.2.2.1, h.2.2.2.2.2.1⟩

/-! ## Claim C8: normalization and notification of the stack order -/

/-- C8 counterexample.  An explicit `z` set during an upsert reorders the
stack but triggers no normalization: on a board with `A, B` (z = 0, 1),
updating `A` with `z = 1` moves `B` to the back (rank 0) while `B`'s
stored model still carries `z = 1` — the freshly computed dense `z` is
not written back (and `_normalizeAndEmitCardOrder` never runs on this
path, so no notification is emitted either). -/
theorem upsert_z_no_normalize_cex :
    ((getShapeModel
        (applyPatch (applyPatch boardInit [{ id := "A" }, { id := "B" }] [] [])
          [] [{ id := "A", z := some 1 }] []) "B").map (fun m => m.z) = some 1) ∧
    getCardOrder
        (applyPatch (applyPatch boardInit [{ id := "A" }, { id := "B" }] [] [])
          [] [{ id := "A", z := some 1 }] []) = [("B", 0), ("A", 1)] := by
  constructor <;>
    norm_num +decide [applyPatch, upsertCard, upsertModel, getShapeModel, lookupShape,
      setShape, clampCardCenter, boardInit, moveToIndex, spliceIdx, insertAt,
      getCardOrder, withIdx, Option.or]

/-- C8 amended.  After a completed drag gesture (the only path that runs
`_normalizeAndEmitCardOrder`), exactly one `onZOrderChange` notification
fires, carrying `getCardOrder()` of the final state; the freshly computed
dense `z` is written back onto every live model (each model's `z` equals
its stack index), and the carried list enumerates every live shape
exactly once.  An explicit `z` set during upsert triggers none of this
(see the counterexample). -/
theorem dragEnd_normalizes_and_emits (s : Board) (i : String) (moves : List (ℚ × ℚ))
    (m : CardModel) (hm : getShapeModel s i = some m) (hWF : WF s) :
    (dragGestureEvents s i moves).countP isZOrderE = 1 ∧
    BoardEvt.zOrderE (getCardOrder (dragGesture s i moves)) ∈ dragGestureEvents s i moves ∧
    (∀ p ∈ getCardOrder (dragGesture s i moves),
      ∃ m', getShapeModel (dragGesture s i moves) p.1 = some m' ∧ m'.z = (p.2 : Int)) ∧
    ((getCardOrder (dragGesture s i moves)).map Prod.fst).Nodup ∧
    (∀ j, j ∈ (getCardOrder (dragGesture s i moves)).map Prod.fst ↔
      (getShapeModel (dragGesture s i moves) j).isSome) := by
  have hWFd := WF_dragGesture s i moves hWF
  have hkey : i ∈ s.shapes.map Prod.fst := by
    rw [← lookupShape_isSome_iff, show lookupShape s.shapes i = getShapeModel s i from rfl,
      hm]; rfl
  -- the pre-normalization state shared by the gesture and its events
  have hs2 : dragGesture s i moves =
      normalizeCardOrder
        { s with stack := moveToTop s.stack i,
                 shapes := setShape s.shapes i
                   { m with
                     cx := (clampCardCenter s.worldW s.worldH
                       (dragMovesPos s.worldW s.worldH m.w m.h (m.cx, m.cy) moves).1
                       (dragMovesPos s.worldW s.worldH m.w m.h (m.cx, m.cy) moves).2
                       m.w m.h).1,
                     cy := (clampCardCenter s.worldW s.worldH
                       (dragMovesPos s.worldW s.worldH m.w m.h (m.cx, m.cy) moves).1
                       (dragMovesPos s.worldW s.worldH m.w m.h (m.cx, m.cy) moves).2
                       m.w m.h).2 } } := by
    unfold dragGesture
    rw [hm]
  set s2 : Board :=
    { s with stack := moveToTop s.stack i,
             shapes := setShape s.shapes i
               { m with
                 cx := (clampCardCenter s.worldW s.worldH
                   (dragMovesPos s.worldW s.worldH m.w m.h (m.cx, m.cy) moves).1
                   (dragMovesPos s.worldW s.worldH m.w m.h (m.cx, m.cy) moves).2
                   m.w m.h).1,
                 cy := (clampCardCenter s.worldW s.worldH
                   (dragMovesPos s.worldW s.worldH m.w m.h (m.cx, m.cy) moves).1
                   (dragMovesPos s.worldW s.worldH m.w m.h (m.cx, m.cy) moves).2
                   m.w m.h).2 } } with hs2def
  have hWF2 : WF s2 :=
    WF_stack_shapes s _ (map_fst_setShape_mem s.shapes i _ hkey) _
      (moveToTop_perm s.stack i) hWF
  have hevs : dragGestureEvents s i moves =
      BoardEvt.dragStartE i m.cx m.cy ::
        (moves.map (fun q =>
          BoardEvt.dragE i (clampCardCenter s.worldW s.worldH q.1 q.2 m.w m.h).1
            (clampCardCenter s.worldW s.worldH q.1 q.2 m.w m.h).2)) ++
        [BoardEvt.dragEndE i
            (clampCardCenter s.worldW s.worldH
              (dragMovesPos s.worldW s.worldH m.w m.h (m.cx, m.cy) moves).1
              (dragMovesPos s.worldW s.worldH m.w m.h (m.cx, m.cy) moves).2 m.w m.h).1
            (clampCardCenter s.worldW s.worldH
              (dragMovesPos s.worldW s.worldH m.w m.h (m.cx, m.cy) moves).1
              (dragMovesPos s.worldW s.worldH m.w m.h (m.cx, m.cy) moves).2 m.w m.h).2,
          BoardEvt.zOrderE (getCardOrder s2)] := by
    unfold dragGestureEvents
    rw [hm]
  have horder : getCardOrder (dragGesture s i moves) = getCardOrder s2 := by
    rw [hs2]; rfl
  obtain ⟨h1, h2, h3, h4⟩ := hWF2
  refine ⟨?_, ?_, ?_, ?_, ?_⟩
  · rw [hevs]
    have hmz : (moves.map (fun q =>
        BoardEvt.dragE i (clampCardCenter s.worldW s.worldH q.1 q.2 m.w m.h).1
          (clampCardCenter s.worldW s.worldH q.1 q.2 m.w m.h).2)).countP isZOrderE = 0 := by
      rw [List.countP_eq_zero]
      intro ev hev
      rcases List.mem_map.mp hev with ⟨q, _, rfl⟩
      simp [isZOrderE]
    simp [List.countP_append, List.countP_cons, hmz, isZOrderE]
  · rw [hevs, horder]
    simp
  · intro p hp
    rw [horder] at hp
    have hpmem : p.1 ∈ s2.stack := by
      have := List.mem_map_of_mem Prod.fst hp
      rwa [getCardOrder_map_fst] at this
    have hsome : (lookupShape s2.shapes p.1).isSome := by
      rw [lookupShape_isSome_iff]
      exact h3 p.1 hpmem
    rcases Option.isSome_iff_exists.mp hsome with ⟨m0, hm0⟩
    refine ⟨{ m0 with z := (p.2 : Int) }, ?_, rfl⟩
    rw [hs2]
    show lookupShape (applyOrder s2.shapes (getCardOrder s2)) p.1 = _
    refine applyOrder_lookup_mem (getCardOrder s2) s2.shapes ?_ p hp m0 hm0
    rw [getCardOrder_map_fst]
    exact h1
  · rw [horder, getCardOrder_map_fst]
    exact (moveToTop_perm s.stack i).nodup_iff.mpr hWF.1
  · intro j
    have hWFd' := hWFd
    obtain ⟨g1, g2, g3, g4⟩ := hWFd'
    rw [horder, getCardOrder_map_fst]
    unfold getShapeModel
    rw [lookupShape_isSome_iff]
    have hstackeq : (dragGesture s i moves).stack = s2.stack := by rw [hs2]; rfl
    constructor
    · intro hj
      exact g3 j (by rw [hstackeq]; exact hj)
    · intro hj
      have := g4 j hj
      rwa [hstackeq] at this

/-- Witness for the amended C8: a drag of `A` on the concrete two-card
board fires exactly one z-order notification. -/
theorem dragEnd_normalizes_and_emits_witness :
    (dragGestureEvents boardAB "A" []).countP isZOrderE = 1 :=
  (dragEnd_normalizes_and_emits boardAB "A" [] cardA
    (by norm_num +decide [getShapeModel, lookupShape, boardAB])
    (by decide)).1

/-! ## Claim C4: snapshot idempotence -/

/-- C4 counterexample.  `applySnapshot` is not idempotent for arbitrary
input: three cards all carrying `z = 1` produce the stack `[A, C, B]` on
the first application and `[B, C, A]` on the second — each `zIndex`
splice moves a card past cards whose stored `z` collides with its own. -/
theorem applySnapshot_not_idem_cex :
    (applySnapshot
        (applySnapshot boardInit
          [{ id := "A", z := some 1 }, { id := "B", z := some 1 }, { id := "C", z := some 1 }])
        [{ id := "A", z := some 1 }, { id := "B", z := some 1 }, { id := "C", z := some 1 }]).stack ≠
      (applySnapshot boardInit
        [{ id := "A", z := some 1 }, { id := "B", z := some 1 }, { id := "C", z := some 1 }]).stack := by
  norm_num +decide [applySnapshot, sortByZ, insAfterZ, upsertCard, upsertModel, getShapeModel,
    lookupShape, setShape, clampCardCenter, boardInit, moveToIndex, spliceIdx, insertAt,
    removeShape, eraseShape, Option.or, List.contains, List.erase]

/-- C4 amended.  `applySnapshot` sorts by ascending `z`, upserts every
entry and destroys absent ids (all by definition of the embedding); it is
idempotent — identical final model set and stack order — on every
well-formed board provided the snapshot's ids are distinct and its `z`
values are exactly the dense set `{0, …, N−1}` (as produced by the
board's own normalization); with duplicate `z` values the second
application can permute the stack (see the counterexample). -/
theorem applySnapshot_idem_dense (s : Board) (arr : List InModel)
    (hnds : s.stack.Nodup)
    (hids : ((sortByZ arr).map (·.id)).Nodup)
    (hz : (sortByZ arr).map (·.z) =
      (List.range' 0 (sortByZ arr).length).map
        (fun k : Nat => (some (Int.ofNat k) : Option Int))) :
    applySnapshot (applySnapshot s arr) arr = applySnapshot s arr := by
  have hspec := applySnapshot_spec s arr hnds hids hz
  set s1 := applySnapshot s arr with hs1
  have hfix : (sortByZ arr).foldl upsertCard s1 = s1 := by
    refine foldUpsert_fixed (sortByZ arr) s1 [] ?_ ?_ ?_ ?_
    · rw [List.nil_append]; exact hspec.2.2.1
    · rw [hspec.2.2.1]; exact hids
    · simpa using hz
    · intro e he
      rcases hspec.2.2.2 e he with ⟨prev, len, hlook⟩
      refine ⟨prev, len, ?_⟩
      rw [hspec.1, hspec.2.1]
      exact hlook
  rw [applySnapshot_eq s1 arr, hfix]
  have h1 : s1.stack.filter (fun i => !(((sortByZ arr).map (·.id)).contains i)) = [] := by
    rw [hspec.2.2.1, List.filter_eq_nil_iff]
    intro a ha
    simp [List.contains, List.elem_iff, ha]
  rw [h1]
  rfl

/-- Witness for the amended C4: a dense-`z` two-card snapshot applied
twice to the fresh board equals one application. -/
theorem applySnapshot_idem_dense_witness :
    applySnapshot
        (applySnapshot boardInit [{ id := "A", z := some 0 }, { id := "B", z := some 1 }])
        [{ id := "A", z := some 0 }, { id := "B", z := some 1 }] =
      applySnapshot boardInit [{ id := "A", z := some 0 }, { id := "B", z := some 1 }] :=
  applySnapshot_idem_dense boardInit
    [{ id := "A", z := some 0 }, { id := "B", z := some 1 }]
    (by simp [boardInit])
    (by norm_num +decide [sortByZ, insAfterZ])
    (by norm_num +decide [sortByZ, insAfterZ, List.range'])

end Canvas
